import Mathlib

/-!
# cache-go: TTL wrappers, registry, interceptor and sharded cache

A shallow embedding of `cache/lru/cache.go`, `cache/arc/cache.go`,
`cache/ristretto/cache.go`, `cache/registry.go`, `cache/interceptor.go` and
`cache/sharded.go`.

Conventions of the embedding.

* Go `time.Time` is a number of nanoseconds on one clock, counted from Go's
  zero `Time`; `time.Duration` is a signed number of nanoseconds.  Each
  method that reads the clock receives the reading it compares against as an
  argument (`now`).
* Go `interface{}` values are `Value V`: the nil interface, a caller-supplied
  dynamic value, or a pointer to the wrapper's private `entry`.
* The eviction engines (`hashicorp/golang-lru`, `dgraph-io/ristretto`) with
  their constructors, the hash ring
  (`serialx/hashring`), `fmt.Sprintf`, the gRPC handler and the metrics sink
  are external collaborators: they enter as parameters.
* Calls on collaborators whose number the specification talks about are
  recorded in an explicit call log.
-/

namespace cache

/-! ## Time -/

/-- Go `time.Time`: nanoseconds since the zero `Time`. -/
structure Time where
  ns : Nat
  deriving DecidableEq, Repr

/-- Go `time.Duration`: signed nanoseconds. -/
abbrev Duration := Int

/-- The zero value of `time.Time` (what `var expires time.Time` holds). -/
def Time.zero : Time := ⟨0⟩

/-- Go `Time.IsZero`. -/
def Time.IsZero (t : Time) : Bool := t.ns == 0

/-- Go `Time.Add`. -/
def Time.Add (t : Time) (d : Duration) : Time := ⟨((t.ns : Int) + d).toNat⟩

/-- Go `Time.Before`. -/
def Time.Before (t u : Time) : Bool := decide (t.ns < u.ns)

/-! ## Values, engines, metrics -/

/-- Go `interface{}` as the wrappers see it: nil, a caller's value, or a
`*entry` holding a value and its expiry instant (`type entry struct`). -/
inductive Value (V : Type) where
  | nil : Value V
  | user (v : V) : Value V
  | entry (value : Value V) (expires : Time) : Value V
  deriving DecidableEq, Repr

/-- Outcome of a Go call that may panic. -/
inductive Result (α : Type) where
  | ret (a : α) : Result α
  | panic : Result α
  deriving DecidableEq, Repr

/-- The surface of an eviction engine (`*lru.Cache`, `*lru.ARCCache`) that the
wrappers call, over an engine state `σ`.  `Get` may reorder the engine (it
returns the new state); `Peek`, `Contains`, `Len` and `Keys` only read. -/
structure Engine (σ K V : Type) where
  Add : K → Value V → σ → σ
  Get : K → σ → (Value V × Bool) × σ
  Peek : K → σ → Value V × Bool
  Contains : K → σ → Bool
  Remove : K → σ → σ
  Purge : σ → σ
  Len : σ → Int
  Keys : σ → List K
  Resize : Int → σ → σ

/-- Call counts at the instrumentation call sites of `metrics.CacheMetrics`:
`Observe` on the three histograms, `Inc` on the three counters, and the values
handed to `ItemNumber.Set`. -/
structure CacheMetrics where
  ResponseTimeSet : Nat := 0
  ResponseTimeGet : Nat := 0
  ResponseTimeDelete : Nat := 0
  HitCount : Nat := 0
  ExpiredCount : Nat := 0
  MissCount : Nat := 0
  ItemNumber : List Int := []
  deriving DecidableEq, Repr

/-- The sentinel errors of `cache/cache.go`. -/
inductive ConfigError where
  | ErrWrongTTL : ConfigError
  | ErrWrongCapacity : ConfigError
  deriving DecidableEq, Repr

/-- The errors a wrapper constructor returns: a sentinel wrapped by
`fmt.Errorf("can't create cache %s: %w", name, sentinel)`, or the error of the
engine's own constructor (type `E`). -/
inductive NewError (E : Type) where
  | wrapped (name : String) (sentinel : ConfigError) : NewError E
  | engine (err : E) : NewError E
  deriving DecidableEq, Repr

/-- Go `errors.Is(err, sentinel)` on the errors above. -/
def NewError.Is {E : Type} : NewError E → ConfigError → Bool
  | NewError.wrapped _ s, sentinel => decide (s = sentinel)
  | NewError.engine _, _ => false

/-- Conversion to `int64` of an integer: two's complement wrap-around. -/
def wrapInt64 (x : Int) : Int := (x + 2 ^ 63) % 2 ^ 64 - 2 ^ 63

/-- The `expires` field computed by `PutWithTTL` (the same text in the lru and
arc wrappers): the zero `Time` unless `ttl > 0`, then `time.Now().Add(ttl)`. -/
def expiresAt (ttl : Duration) (now : Time) : Time :=
  if ttl > 0 then now.Add ttl else Time.zero

/-- The deferred function of `Get` (the same text in the lru and arc wrappers),
run with the final values of the named result `ok` and of `expired`. -/
def getDeferred (m : CacheMetrics) (ok expired : Bool) : CacheMetrics :=
  let m1 := { m with ResponseTimeGet := m.ResponseTimeGet + 1 }
  if ok then { m1 with HitCount := m1.HitCount + 1 }
  else if expired then { m1 with ExpiredCount := m1.ExpiredCount + 1 }
  else { m1 with MissCount := m1.MissCount + 1 }

end cache

/-! ## `cache/lru/cache.go` -/

namespace lru
open cache

/-- The struct `Cache`: the embedded engine (its operations and its current
contents), the `close` channel (true once closed), metrics, name, capacity and
default TTL. -/
structure Cache (σ K V : Type) where
  engine : Engine σ K V
  st : σ
  close : Bool
  metrics : CacheMetrics
  name : String
  cap : Int
  ttl : Duration

variable {σ K V : Type}

/-- The method `Cap`. -/
def Cache.Cap (c : Cache σ K V) : Int := c.cap

/-- The method `Len`, promoted from the embedded engine. -/
def Cache.Len (c : Cache σ K V) : Int := c.engine.Len c.st

/-- The method `Name`. -/
def Cache.Name (c : Cache σ K V) : String := c.name

/-- The method `Clear`. -/
def Cache.Clear (c : Cache σ K V) : Cache σ K V :=
  { c with st := c.engine.Purge c.st }

/-- The method `PutWithTTL`; `now` is the reading of `time.Now()` used for the
expiry.  The deferred function observes the set-latency histogram. -/
def Cache.PutWithTTL (c : Cache σ K V) (key : K) (value : Value V)
    (ttl : Duration) (now : Time) : Cache σ K V :=
  let expires := expiresAt ttl now
  let st1 := c.engine.Add key (Value.entry value expires) c.st
  { c with st := st1,
           metrics := { c.metrics with ResponseTimeSet := c.metrics.ResponseTimeSet + 1 } }

/-- The method `Put`. -/
def Cache.Put (c : Cache σ K V) (key : K) (value : Value V) (now : Time) :
    Cache σ K V :=
  c.PutWithTTL key value c.ttl now

/-- The method `Get`; `now` is the reading of `time.Now()` compared with the
entry's expiry.  The type assertion `v.(*entry)` panics on a stored value that
is not an entry; the deferred function then runs with `ok` still true. -/
def Cache.Get (c : Cache σ K V) (key : K) (now : Time) :
    Result (Value V × Bool) × Cache σ K V :=
  let r := c.engine.Get key c.st
  let c1 := { c with st := r.2 }
  match r.1 with
  | (v, true) =>
    match v with
    | Value.entry value expires =>
      if expires.IsZero || now.Before expires then
        (Result.ret (value, true), { c1 with metrics := getDeferred c1.metrics true false })
      else
        (Result.ret (Value.nil, false), { c1 with metrics := getDeferred c1.metrics false true })
    | _ => (Result.panic, { c1 with metrics := getDeferred c1.metrics true false })
  | (_, false) =>
    (Result.ret (Value.nil, false), { c1 with metrics := getDeferred c1.metrics false false })

/-- The method `Peek`; `now` as in `Get`.  The conjunction short-circuits, so
the type assertion is reached only when the engine reports the key. -/
def Cache.Peek (c : Cache σ K V) (key : K) (now : Time) : Result (Value V × Bool) :=
  match c.engine.Peek key c.st with
  | (v, true) =>
    match v with
    | Value.entry value expires =>
      if expires.IsZero || now.Before expires then Result.ret (value, true)
      else Result.ret (Value.nil, false)
    | _ => Result.panic
  | (_, false) => Result.ret (Value.nil, false)

/-- The method `Remove`. -/
def Cache.Remove (c : Cache σ K V) (key : K) : Cache σ K V :=
  { c with st := c.engine.Remove key c.st,
           metrics := { c.metrics with ResponseTimeDelete := c.metrics.ResponseTimeDelete + 1 } }

/-- The method `Add`, promoted from the embedded engine: it stores `value`
as it is, without wrapping it in an entry. -/
def Cache.Add {σ K V : Type} (c : Cache σ K V) (key : K) (value : Value V) : Cache σ K V :=
  { c with st := c.engine.Add key value c.st }

/-- The method `Contains`, promoted from the embedded engine. -/
def Cache.Contains {σ K V : Type} (c : Cache σ K V) (key : K) : Bool :=
  c.engine.Contains key c.st

/-- The method `Close`.  In the `select`, a receive on the closed channel
`c.close` yields `ok == false` and the method returns nil; on the open channel
no value is ever sent, so the `default` branch is taken and the method goes on
to `c.Clear()` and `close(c.close)`, which panics on a closed channel. -/
def Cache.Close {σ K V : Type} (c : Cache σ K V) : Result (Option String) × Cache σ K V :=
  if c.close then (Result.ret none, c)
  else
    let c1 := c.Clear
    if c1.close then (Result.panic, c1)
    else (Result.ret none, { c1 with close := true })

/-- The method `SetCap`: `_ = c.Resize(cap); c.cap = cap; return nil`. -/
def Cache.SetCap {σ K V : Type} (c : Cache σ K V) (cap : Int) :
    Option String × Cache σ K V :=
  (none, { c with st := c.engine.Resize cap c.st, cap := cap })

/-- The function `WrapOnEvictWithUnwrapper`; a callback acts on a world `ω`.
The type assertion `value.(*entry)` succeeds exactly on an entry. -/
def WrapOnEvictWithUnwrapper {K V ω : Type} (orig : K → Value V → ω → ω) :
    K → Value V → ω → ω :=
  fun key value =>
    match value with
    | Value.entry v _ => orig key v
    | x => orig key x

/-- The constructor `NewCacheWithEvictCallback`.  `NewWithEvict` is the
engine constructor `lru.NewWithEvict(size, onEvict)`; `onEvict` is the callback
(`none` for nil).  The fresh cache has an open `close` channel and untouched
metrics; the goroutine `stats` it starts is not part of the returned value. -/
def NewCacheWithEvictCallback {σ K V F E : Type}
    (NewWithEvict : Int → Option F → Except E (Engine σ K V × σ))
    (name : String) (cap : Int) (ttl : Duration) (onEvict : Option F) :
    Option (Cache σ K V) × Option (NewError E) :=
  if cap ≤ 0 then (none, some (NewError.wrapped name ConfigError.ErrWrongCapacity))
  else if ttl < 0 then (none, some (NewError.wrapped name ConfigError.ErrWrongTTL))
  else
    match NewWithEvict cap onEvict with
    | Except.error err => (none, some (NewError.engine err))
    | Except.ok lruCache =>
      (some ⟨lruCache.1, lruCache.2, false, {}, name, cap, ttl⟩, none)

/-- The constructor `NewCache`. -/
def NewCache {σ K V F E : Type}
    (NewWithEvict : Int → Option F → Except E (Engine σ K V × σ))
    (name : String) (cap : Int) (ttl : Duration) :
    Option (Cache σ K V) × Option (NewError E) :=
  NewCacheWithEvictCallback NewWithEvict name cap ttl none

end lru

/-! ## `cache/arc/cache.go` -/

namespace arc
open cache

/-- The struct `Cache`: the embedded engine (its operations and its current
contents), the `close` channel (true once closed), metrics, name, capacity and
default TTL. -/
structure Cache (σ K V : Type) where
  engine : Engine σ K V
  st : σ
  close : Bool
  metrics : CacheMetrics
  name : String
  cap : Int
  ttl : Duration

variable {σ K V : Type}

/-- The method `Cap`. -/
def Cache.Cap (c : Cache σ K V) : Int := c.cap

/-- The method `Len`, promoted from the embedded engine. -/
def Cache.Len (c : Cache σ K V) : Int := c.engine.Len c.st

/-- The method `Name`. -/
def Cache.Name (c : Cache σ K V) : String := c.name

/-- The method `Clear`. -/
def Cache.Clear (c : Cache σ K V) : Cache σ K V :=
  { c with st := c.engine.Purge c.st }

/-- The method `PutWithTTL`; `now` is the reading of `time.Now()` used for the
expiry.  The deferred function observes the set-latency histogram. -/
def Cache.PutWithTTL (c : Cache σ K V) (key : K) (value : Value V)
    (ttl : Duration) (now : Time) : Cache σ K V :=
  let expires := expiresAt ttl now
  let st1 := c.engine.Add key (Value.entry value expires) c.st
  { c with st := st1,
           metrics := { c.metrics with ResponseTimeSet := c.metrics.ResponseTimeSet + 1 } }

/-- The method `Put`. -/
def Cache.Put (c : Cache σ K V) (key : K) (value : Value V) (now : Time) :
    Cache σ K V :=
  c.PutWithTTL key value c.ttl now

/-- The method `Get`; `now` is the reading of `time.Now()` compared with the
entry's expiry.  The type assertion `v.(*entry)` panics on a stored value that
is not an entry; the deferred function then runs with `ok` still true. -/
def Cache.Get (c : Cache σ K V) (key : K) (now : Time) :
    Result (Value V × Bool) × Cache σ K V :=
  let r := c.engine.Get key c.st
  let c1 := { c with st := r.2 }
  match r.1 with
  | (v, true) =>
    match v with
    | Value.entry value expires =>
      if expires.IsZero || now.Before expires then
        (Result.ret (value, true), { c1 with metrics := getDeferred c1.metrics true false })
      else
        (Result.ret (Value.nil, false), { c1 with metrics := getDeferred c1.metrics false true })
    | _ => (Result.panic, { c1 with metrics := getDeferred c1.metrics true false })
  | (_, false) =>
    (Result.ret (Value.nil, false), { c1 with metrics := getDeferred c1.metrics false false })

/-- The method `Peek`; `now` as in `Get`.  The conjunction short-circuits, so
the type assertion is reached only when the engine reports the key. -/
def Cache.Peek (c : Cache σ K V) (key : K) (now : Time) : Result (Value V × Bool) :=
  match c.engine.Peek key c.st with
  | (v, true) =>
    match v with
    | Value.entry value expires =>
      if expires.IsZero || now.Before expires then Result.ret (value, true)
      else Result.ret (Value.nil, false)
    | _ => Result.panic
  | (_, false) => Result.ret (Value.nil, false)

/-- The method `Remove`. -/
def Cache.Remove (c : Cache σ K V) (key : K) : Cache σ K V :=
  { c with st := c.engine.Remove key c.st,
           metrics := { c.metrics with ResponseTimeDelete := c.metrics.ResponseTimeDelete + 1 } }

/-- The method `Add`, promoted from the embedded engine: it stores `value`
as it is, without wrapping it in an entry. -/
def Cache.Add {σ K V : Type} (c : Cache σ K V) (key : K) (value : Value V) : Cache σ K V :=
  { c with st := c.engine.Add key value c.st }

/-- The method `Contains`, promoted from the embedded engine. -/
def Cache.Contains {σ K V : Type} (c : Cache σ K V) (key : K) : Bool :=
  c.engine.Contains key c.st

/-- The method `Close`.  In the `select`, a receive on the closed channel
`c.close` yields `ok == false` and the method returns nil; on the open channel
no value is ever sent, so the `default` branch is taken and the method goes on
to `c.Clear()` and `close(c.close)`, which panics on a closed channel. -/
def Cache.Close {σ K V : Type} (c : Cache σ K V) : Result (Option String) × Cache σ K V :=
  if c.close then (Result.ret none, c)
  else
    let c1 := c.Clear
    if c1.close then (Result.panic, c1)
    else (Result.ret none, { c1 with close := true })

/-- The constructor `NewCache`.  `NewARC` is the engine constructor
`lru.NewARC(size)`.  The fresh cache has an open `close` channel and untouched
metrics; the goroutine `stats` it starts is not part of the returned value. -/
def NewCache {σ K V E : Type} (NewARC : Int → Except E (Engine σ K V × σ))
    (name : String) (cap : Int) (ttl : Duration) :
    Option (Cache σ K V) × Option (NewError E) :=
  if cap ≤ 0 then (none, some (NewError.wrapped name ConfigError.ErrWrongCapacity))
  else if ttl < 0 then (none, some (NewError.wrapped name ConfigError.ErrWrongTTL))
  else
    match NewARC cap with
    | Except.error err => (none, some (NewError.engine err))
    | Except.ok arc => (some ⟨arc.1, arc.2, false, {}, name, cap, ttl⟩, none)

end arc

/-! ## `cache/ristretto/cache.go` -/

namespace ristretto
open cache

/-- The fields of the library's `ristretto.Config` that `BuildConfig` sets. -/
structure RistrettoConfig where
  NumCounters : Int
  MaxCost : Int
  BufferItems : Int
  Metrics : Bool
  IgnoreInternalCost : Bool
  deriving DecidableEq, Repr

/-- The struct `Config`: the embedded library configuration (the field that Go
names `Config` after its type), the default TTL and the cost handed to `Set`. -/
structure Config where
  embedded : RistrettoConfig
  TTL : Duration
  Cost : Int
  deriving DecidableEq, Repr

/-- The surface of the library's `*ristretto.Cache` that the wrapper calls,
over an engine state `σ`.  The engine keeps the expiry itself, so its reads and
writes take the clock reading; `Get` also records the access (it returns the
new state).  `KeysAdded` and `CostEvicted` are the two counters of its
`Metrics`. -/
structure RistrettoCache (σ K V : Type) where
  Get : K → Time → σ → (Value V × Bool) × σ
  Set : K → Value V → Int → σ → σ
  SetWithTTL : K → Value V → Int → Duration → Time → σ → σ
  Del : K → σ → σ
  Clear : σ → σ
  Close : σ → σ
  UpdateMaxCost : Int → σ → σ
  KeysAdded : σ → Nat
  CostEvicted : σ → Nat

/-- The struct `Cache`: the engine (its operations and its current state), the
`close` channel (true once closed), metrics, name, capacity, default TTL and
cost. -/
structure Cache (σ K V : Type) where
  cache : RistrettoCache σ K V
  st : σ
  close : Bool
  metrics : CacheMetrics
  name : String
  cap : Int
  ttl : Duration
  cost : Int

/-- The function `BuildConfig`. -/
def BuildConfig (capacity : Int) (ttl : Duration) : Config :=
  { embedded :=
      { NumCounters := wrapInt64 (wrapInt64 capacity * 10),
        MaxCost := wrapInt64 capacity,
        BufferItems := 64,
        Metrics := true,
        IgnoreInternalCost := true },
    TTL := ttl,
    Cost := 1 }

/-- The error `NewWithConfig` returns:
`fmt.Errorf("failed to create ristretto: %w", err)`. -/
inductive NewError (E : Type) where
  | failedToCreate (err : E) : NewError E
  deriving DecidableEq, Repr

/-- The constructor `NewWithConfig`.  `NewCache` is the library constructor
`ristretto.NewCache(&config.Config)`.  The goroutine `stats` the constructor
starts is not part of the returned value. -/
def NewWithConfig {σ K V E : Type}
    (NewCache : RistrettoConfig → Except E (RistrettoCache σ K V × σ))
    (name : String) (config : Config) : Option (Cache σ K V) × Option (NewError E) :=
  match NewCache config.embedded with
  | Except.error err => (none, some (NewError.failedToCreate err))
  | Except.ok r =>
    (some ⟨r.1, r.2, false, {}, name, config.embedded.MaxCost, config.TTL, config.Cost⟩, none)

/-- The constructor `New`. -/
def New {σ K V E : Type}
    (NewCache : RistrettoConfig → Except E (RistrettoCache σ K V × σ))
    (name : String) (capacity : Int) (ttl : Duration) :
    Option (Cache σ K V) × Option (NewError E) :=
  NewWithConfig NewCache name (BuildConfig capacity ttl)

variable {σ K V : Type}

/-- The method `Cap`. -/
def Cache.Cap (c : Cache σ K V) : Int := c.cap

/-- The method `Name`. -/
def Cache.Name (c : Cache σ K V) : String := c.name

/-- The method `Clear`. -/
def Cache.Clear (c : Cache σ K V) : Cache σ K V :=
  { c with st := c.cache.Clear c.st }

/-- The method `Contains`: `_, ok := c.cache.Get(key)`. -/
def Cache.Contains (c : Cache σ K V) (key : K) (now : Time) : Bool × Cache σ K V :=
  let r := c.cache.Get key now c.st
  (r.1.2, { c with st := r.2 })

/-- The method `Get`; `now` is the clock reading the engine compares expiries
with.  The local `expired` is set to false and never assigned again, so the
deferred function runs with `expired` false. -/
def Cache.Get (c : Cache σ K V) (key : K) (now : Time) :
    (Value V × Bool) × Cache σ K V :=
  let r := c.cache.Get key now c.st
  (r.1, { c with st := r.2, metrics := getDeferred c.metrics r.1.2 false })

/-- The method `Peek`: `return c.cache.Get(key)`. -/
def Cache.Peek (c : Cache σ K V) (key : K) (now : Time) :
    (Value V × Bool) × Cache σ K V :=
  let r := c.cache.Get key now c.st
  (r.1, { c with st := r.2 })

/-- The method `PutWithTTL`; `now` is the clock reading the engine dates the
expiry from.  The deferred function observes the set-latency histogram. -/
def Cache.PutWithTTL (c : Cache σ K V) (key : K) (value : Value V)
    (ttl : Duration) (now : Time) : Cache σ K V :=
  let st1 :=
    if ttl = 0 then c.cache.Set key value c.cost c.st
    else c.cache.SetWithTTL key value c.cost ttl now c.st
  { c with st := st1,
           metrics := { c.metrics with ResponseTimeSet := c.metrics.ResponseTimeSet + 1 } }

/-- The method `Put`. -/
def Cache.Put (c : Cache σ K V) (key : K) (value : Value V) (now : Time) :
    Cache σ K V :=
  c.PutWithTTL key value c.ttl now

/-- The method `Remove`. -/
def Cache.Remove (c : Cache σ K V) (key : K) : Cache σ K V :=
  { c with st := c.cache.Del key c.st,
           metrics := { c.metrics with ResponseTimeDelete := c.metrics.ResponseTimeDelete + 1 } }

/-- The method `Close`.  In the `select`, a receive on the closed channel
`c.close` yields `ok == false` and the method returns nil; on the open channel
no value is ever sent, so the `default` branch is taken and the method goes on
to `c.Clear()`, `c.cache.Close()` and `close(c.close)`, which panics on a
closed channel. -/
def Cache.Close (c : Cache σ K V) : Result (Option String) × Cache σ K V :=
  if c.close then (Result.ret none, c)
  else
    let c1 := c.Clear
    let c2 := { c1 with st := c1.cache.Close c1.st }
    if c2.close then (Result.panic, c2)
    else (Result.ret none, { c2 with close := true })

/-- The method `SetCap`: `c.cache.UpdateMaxCost(int64(cap)); c.cap = cap;
return nil`. -/
def Cache.SetCap (c : Cache σ K V) (cap : Int) : Option String × Cache σ K V :=
  (none, { c with st := c.cache.UpdateMaxCost (wrapInt64 cap) c.st, cap := cap })

end ristretto

/-! ## `cache/registry.go` -/

namespace cache

/-- The errors built by `Register` with `fmt.Errorf`. -/
inductive RegisterError where
  | nilCache : RegisterError
  | sameName (name : String) : RegisterError
  deriving DecidableEq, Repr

/-- The struct `cacheRegistry`: the field `caches`, a `map[string]NamedCache`
kept as an association list read by first match (so consing a pair is the
map assignment `caches[k] = v`).  `C` is the type of non-nil `NamedCache`
interface values. -/
structure cacheRegistry (C : Type) where
  caches : List (String × C)

/-- The constructor `NewRegistry`: an empty map. -/
def NewRegistry {C : Type} : cacheRegistry C := ⟨[]⟩

/-- The method `GetByName`: `s, ok := r.caches[name]; return s, ok`. -/
def cacheRegistry.GetByName {C : Type} (r : cacheRegistry C) (name : String) :
    Option C × Bool :=
  (r.caches.lookup name, (r.caches.lookup name).isSome)

/-- The method `Register`, looping over the batch `cc`; an element `none` is a
nil interface value.  `Name` is the method `Name()` of the caches.  It returns
the registry as the loop left it together with the error (`none` for nil). -/
def cacheRegistry.Register {C : Type} (Name : C → String) (r : cacheRegistry C) :
    List (Option C) → cacheRegistry C × Option RegisterError
  | [] => (r, none)
  | none :: _ => (r, some RegisterError.nilCache)
  | some s :: cc =>
    if (r.caches.lookup (Name s)).isSome then
      (r, some (RegisterError.sameName (Name s)))
    else
      cacheRegistry.Register Name ⟨(Name s, s) :: r.caches⟩ cc

/-- A call of the registry's logger (`logErrorf` in `MaybeRegister`,
`logFatalf` in `MustRegister`) with its arguments: the construction error, or
the cache's name and the registration error. -/
inductive LogCall (E : Type) where
  | createFailed (err : E) : LogCall E
  | registerFailed (name : String) (err : RegisterError) : LogCall E
  deriving DecidableEq, Repr

/-- What `MaybeRegister` or `MustRegister` leaves behind: whether it returned
or panicked, the registry, and the calls it made on its logger in order. -/
structure Registration (C E : Type) where
  result : Result Unit
  registry : cacheRegistry C
  logs : List (LogCall E)

/-- The method `MaybeRegister`; `cache` is `none` for a nil interface value and
`err` is `none` for the nil error.  In the second call of `logErrorf` the
argument `cache.Name()` is evaluated before the call, and it panics on a nil
`cache`. -/
def cacheRegistry.MaybeRegister {C E : Type} (Name : C → String) (r : cacheRegistry C)
    (cache : Option C) (err : Option E) : Registration C E :=
  match err with
  | some e => ⟨Result.ret (), r, [LogCall.createFailed e]⟩
  | none =>
    let reg := cacheRegistry.Register Name r [cache]
    match reg.2 with
    | none => ⟨Result.ret (), reg.1, []⟩
    | some rerr =>
      match cache with
      | none => ⟨Result.panic, reg.1, []⟩
      | some s => ⟨Result.ret (), reg.1, [LogCall.registerFailed (Name s) rerr]⟩

/-- The method `MustRegister`: the same text with `logFatalf` as the logger.
The logger is the injected function; the method goes on after it returns. -/
def cacheRegistry.MustRegister {C E : Type} (Name : C → String) (r : cacheRegistry C)
    (cache : Option C) (err : Option E) : Registration C E :=
  match err with
  | some e => ⟨Result.ret (), r, [LogCall.createFailed e]⟩
  | none =>
    let reg := cacheRegistry.Register Name r [cache]
    match reg.2 with
    | none => ⟨Result.ret (), reg.1, []⟩
    | some rerr =>
      match cache with
      | none => ⟨Result.panic, reg.1, []⟩
      | some s => ⟨Result.ret (), reg.1, [LogCall.registerFailed (Name s) rerr]⟩

end cache

/-! ## `cache/interceptor.go` -/

namespace cache

/-- A call made by the interceptor on one of its collaborators, with its
arguments: the gRPC handler, `Registry.GetByName`, `Cache.Get`, `Cache.Put`. -/
inductive Call (C Ctx Req V : Type) where
  | handler (ctx : Ctx) (request : Req) : Call C Ctx Req V
  | GetByName (name : String) : Call C Ctx Req V
  | Get (cache : C) (key : String) : Call C Ctx Req V
  | Put (cache : C) (key : String) (value : Value V) : Call C Ctx Req V
  deriving DecidableEq, Repr

/-- The collaborators of the interceptor over a world state `ω`: the type
assertion `request.(fmt.Stringer)` followed by `String()` (`none` when the
request is not a Stringer), the `Registry` interface value, and the methods of
the `NamedCache` interface values of type `C` it hands out. -/
structure Collaborators (C ω Req V : Type) where
  Stringer : Req → Option String
  GetByName : String → ω → (Option C × Bool) × ω
  Get : C → String → ω → (Value V × Bool) × ω
  Put : C → String → Value V → ω → ω

/-- A `grpc.UnaryHandler`: from context and request to response and error
(`none` is the nil error), acting on the world. -/
abbrev UnaryHandler (ω Ctx Req V E : Type) :=
  Ctx → Req → ω → (Value V × Option E) × ω

/-- What one run of the interceptor leaves behind: its return value (or a
panic), the world, and the calls it made in order. -/
structure Run (C ω Ctx Req V E : Type) where
  result : Result (Value V × Option E)
  world : ω
  calls : List (Call C Ctx Req V)

/-- The method `interceptor.unaryServer`; `fullMethod` is `info.FullMethod`.
A method call on a nil `cache` interface value panics. -/
def unaryServer {C ω Ctx Req V E : Type} (i : Collaborators C ω Req V)
    (ctx : Ctx) (request : Req) (fullMethod : String)
    (handler : UnaryHandler ω Ctx Req V E) (w : ω) : Run C ω Ctx Req V E :=
  match i.Stringer request with
  | none =>
    let h := handler ctx request w
    ⟨Result.ret h.1, h.2, [Call.handler ctx request]⟩
  | some key =>
    let g := i.GetByName fullMethod w
    match g.1 with
    | (_, false) =>
      let h := handler ctx request g.2
      ⟨Result.ret h.1, h.2, [Call.GetByName fullMethod, Call.handler ctx request]⟩
    | (found, true) =>
      match found with
      | none => ⟨Result.panic, g.2, [Call.GetByName fullMethod]⟩
      | some cache =>
        let v := i.Get cache key g.2
        match v.1 with
        | (value, true) =>
          ⟨Result.ret (value, none), v.2, [Call.GetByName fullMethod, Call.Get cache key]⟩
        | (_, false) =>
          let h := handler ctx request v.2
          match h.1 with
          | (response, none) =>
            ⟨Result.ret (response, none), i.Put cache key response h.2,
              [Call.GetByName fullMethod, Call.Get cache key, Call.handler ctx request,
               Call.Put cache key response]⟩
          | (response, some err) =>
            ⟨Result.ret (response, some err), h.2,
              [Call.GetByName fullMethod, Call.Get cache key, Call.handler ctx request]⟩

end cache

namespace cache

/-- Whether a logged call is an invocation of the handler. -/
def Call.isHandler {C Ctx Req V : Type} : Call C Ctx Req V → Bool
  | Call.handler _ _ => true
  | _ => false

/-- Whether a logged call is a `Put` on a cache. -/
def Call.isPut {C Ctx Req V : Type} : Call C Ctx Req V → Bool
  | Call.Put _ _ _ => true
  | _ => false

/-- Whether a logged call is a `Get` on a cache. -/
def Call.isGet {C Ctx Req V : Type} : Call C Ctx Req V → Bool
  | Call.Get _ _ => true
  | _ => false

/-- Whether a logged call is a `GetByName` on the registry. -/
def Call.isGetByName {C Ctx Req V : Type} : Call C Ctx Req V → Bool
  | Call.GetByName _ => true
  | _ => false

end cache

/-! ## `cache/sharded.go` -/

namespace cache

/-- The `*hashring.HashRing` built at construction, through the one method
the sharded cache calls: `GetNode(stringKey) (node string, ok bool)`. -/
structure HashRing where
  GetNode : String → String × Bool

/-- The struct `shardedCache`; `nodeByName` is a map kept as an association
list read by first match.  `C` is the type of non-nil `NamedCache` values. -/
structure shardedCache (C : Type) where
  ring : HashRing
  nodes : List C
  nodeByName : List (String × C)

/-- The error value `ErrEmptyNodes`. -/
inductive ShardedError where
  | ErrEmptyNodes : ShardedError
  deriving DecidableEq, Repr

/-- The constructor `NewShardedCache`; `New` is `hashring.New` and `Name` the
method `Name()` of the nodes. -/
def NewShardedCache {C : Type} (New : List String → HashRing) (Name : C → String)
    (nodes : List C) : Option (shardedCache C) × Option ShardedError :=
  if nodes.length = 0 then (none, some ShardedError.ErrEmptyNodes)
  else
    let names := nodes.map Name
    let nodeByName := nodes.foldl (fun m node => (Name node, node) :: m) []
    (some ⟨New names, nodes, nodeByName⟩, none)

/-- The methods of the nodes (`NamedCache` interface values of type `C`) over a
world state `ω`, and `fmt.Sprintf("%+v", key)`. -/
structure Nodes (C ω K V : Type) where
  Sprintf : K → String
  Cap : C → ω → Int × ω
  Len : C → ω → Int × ω
  Clear : C → ω → ω
  Contains : C → K → ω → Bool × ω
  Get : C → K → ω → (Value V × Bool) × ω
  Peek : C → K → ω → (Value V × Bool) × ω
  Put : C → K → Value V → ω → ω
  Remove : C → K → ω → ω

/-- A method call made on a node, with its arguments. -/
inductive NodeCall (C K V : Type) where
  | Contains (node : C) (key : K) : NodeCall C K V
  | Get (node : C) (key : K) : NodeCall C K V
  | Peek (node : C) (key : K) : NodeCall C K V
  | Put (node : C) (key : K) (value : Value V) : NodeCall C K V
  | Remove (node : C) (key : K) : NodeCall C K V
  deriving DecidableEq, Repr

/-- What a per-key method of the sharded cache leaves behind: its return value
(or a panic), the world, and the calls it made on nodes in order. -/
structure Routed (C ω K V α : Type) where
  result : Result α
  world : ω
  calls : List (NodeCall C K V)

/-- The method `keyToNode`; the first component is `sc.nodeByName[name]`
(`none` is the nil interface read from a missing map key). -/
def shardedCache.keyToNode {C K : Type} (sc : shardedCache C) (Sprintf : K → String)
    (key : K) : Option C × Bool :=
  match sc.ring.GetNode (Sprintf key) with
  | (_, false) => (none, false)
  | (name, true) => (sc.nodeByName.lookup name, true)

/-- The method `Contains`.  A method call on a nil `node` panics. -/
def shardedCache.Contains {C ω K V : Type} (sc : shardedCache C) (n : Nodes C ω K V)
    (key : K) (w : ω) : Routed C ω K V Bool :=
  match sc.keyToNode n.Sprintf key with
  | (_, false) => ⟨Result.ret false, w, []⟩
  | (found, true) =>
    match found with
    | none => ⟨Result.panic, w, []⟩
    | some node =>
      let r := n.Contains node key w
      ⟨Result.ret r.1, r.2, [NodeCall.Contains node key]⟩

/-- The method `Get`. -/
def shardedCache.Get {C ω K V : Type} (sc : shardedCache C) (n : Nodes C ω K V)
    (key : K) (w : ω) : Routed C ω K V (Value V × Bool) :=
  match sc.keyToNode n.Sprintf key with
  | (_, false) => ⟨Result.ret (Value.nil, false), w, []⟩
  | (found, true) =>
    match found with
    | none => ⟨Result.panic, w, []⟩
    | some node =>
      let r := n.Get node key w
      ⟨Result.ret r.1, r.2, [NodeCall.Get node key]⟩

/-- The method `Peek`. -/
def shardedCache.Peek {C ω K V : Type} (sc : shardedCache C) (n : Nodes C ω K V)
    (key : K) (w : ω) : Routed C ω K V (Value V × Bool) :=
  match sc.keyToNode n.Sprintf key with
  | (_, false) => ⟨Result.ret (Value.nil, false), w, []⟩
  | (found, true) =>
    match found with
    | none => ⟨Result.panic, w, []⟩
    | some node =>
      let r := n.Peek node key w
      ⟨Result.ret r.1, r.2, [NodeCall.Peek node key]⟩

/-- The method `Put`. -/
def shardedCache.Put {C ω K V : Type} (sc : shardedCache C) (n : Nodes C ω K V)
    (key : K) (value : Value V) (w : ω) : Routed C ω K V Unit :=
  match sc.keyToNode n.Sprintf key with
  | (_, false) => ⟨Result.ret (), w, []⟩
  | (found, true) =>
    match found with
    | none => ⟨Result.panic, w, []⟩
    | some node =>
      ⟨Result.ret (), n.Put node key value w, [NodeCall.Put node key value]⟩

/-- The method `Remove`. -/
def shardedCache.Remove {C ω K V : Type} (sc : shardedCache C) (n : Nodes C ω K V)
    (key : K) (w : ω) : Routed C ω K V Unit :=
  match sc.keyToNode n.Sprintf key with
  | (_, false) => ⟨Result.ret (), w, []⟩
  | (found, true) =>
    match found with
    | none => ⟨Result.panic, w, []⟩
    | some node =>
      ⟨Result.ret (), n.Remove node key w, [NodeCall.Remove node key]⟩

end cache

/-! ### `doInParallel`: goroutines, the WaitGroup and the unbuffered channel

The method is embedded as a transition system.  One step is one atomic action
of one goroutine; a goroutine that is blocked has no step. -/

namespace cache

/-- Where the goroutine that called `doInParallel` stands: in the `for` loop
over `sc.nodes` (with the nodes still to visit), at `wg.Wait()`, at
`close(output)`, in `for v := range output`, or returned. -/
inductive MainPC (C : Type) where
  | spawning (rest : List C) : MainPC C
  | waiting : MainPC C
  | closing : MainPC C
  | ranging : MainPC C
  | returned : MainPC C
  deriving DecidableEq, Repr

/-- Where a goroutine started by `go func(node NamedCache)` stands: before
evaluating `f(node)`, at the send `output <- v`, after the send with the
deferred `wg.Done()` still to run, or finished. -/
inductive Worker (C : Type) where
  | started (node : C) : Worker C
  | sending (v : Int) : Worker C
  | sent : Worker C
  | exited : Worker C
  deriving DecidableEq, Repr

/-- A configuration of a running `doInParallel`: the caller's position, the
WaitGroup counter, whether `output` is closed, the local `sum`, the goroutines
started so far, the world the node methods act on, and whether the process has
crashed (a send on a closed channel). -/
structure Par (C ω : Type) where
  main : MainPC C
  wg : Int
  closed : Bool
  sum : Int
  workers : List (Worker C)
  world : ω
  crashed : Bool
  deriving DecidableEq, Repr

/-- The next action of the calling goroutine, if it is not blocked.
`wg.Wait()` passes only at counter zero.  `output` is unbuffered: a receive in
the `range` loop from the open channel needs a sender (see `Par.workerStep`),
and on the closed channel the loop ends. -/
def Par.mainStep {C ω : Type} (s : Par C ω) : Option (Par C ω) :=
  match s.main with
  | MainPC.spawning [] => some { s with main := MainPC.waiting }
  | MainPC.spawning (node :: rest) =>
    some { s with main := MainPC.spawning rest, wg := s.wg + 1,
                  workers := s.workers ++ [Worker.started node] }
  | MainPC.waiting => if s.wg = 0 then some { s with main := MainPC.closing } else none
  | MainPC.closing => some { s with main := MainPC.ranging, closed := true }
  | MainPC.ranging => if s.closed then some { s with main := MainPC.returned } else none
  | MainPC.returned => none

/-- The next action of the `i`-th started goroutine, if it is not blocked.  The
send on the unbuffered `output` completes only together with a receive of the
caller, which receives only in its `range` loop. -/
def Par.workerStep {C ω : Type} (f : C → ω → Int × ω) (s : Par C ω) (i : Nat) :
    Option (Par C ω) :=
  match s.workers[i]? with
  | some (Worker.started node) =>
    let r := f node s.world
    some { s with workers := s.workers.set i (Worker.sending r.1), world := r.2 }
  | some (Worker.sending v) =>
    if s.closed then some { s with crashed := true }
    else
      match s.main with
      | MainPC.ranging =>
        some { s with sum := s.sum + v, workers := s.workers.set i Worker.sent }
      | _ => none
  | some Worker.sent => some { s with wg := s.wg - 1, workers := s.workers.set i Worker.exited }
  | some Worker.exited => none
  | none => none

/-- All configurations one step away. -/
def Par.step {C ω : Type} (f : C → ω → Int × ω) (s : Par C ω) : List (Par C ω) :=
  if s.crashed then []
  else s.mainStep.toList ++ (List.range s.workers.length).filterMap (Par.workerStep f s)

/-- The configurations reachable from `s`. -/
def Par.Reaches {C ω : Type} (f : C → ω → Int × ω) (s t : Par C ω) : Prop :=
  Relation.ReflTransGen (fun a b => b ∈ Par.step f a) s t

/-- One schedule, run for at most `fuel` steps: always the first enabled step. -/
def Par.run {C ω : Type} (f : C → ω → Int × ω) : Nat → Par C ω → Par C ω
  | 0, s => s
  | fuel + 1, s =>
    match Par.step f s with
    | [] => s
    | t :: _ => Par.run f fuel t

/-- The method `doInParallel` at its entry: nothing started, the fresh
WaitGroup and channel. -/
def shardedCache.doInParallel {C ω : Type} (sc : shardedCache C) (w : ω) : Par C ω :=
  ⟨MainPC.spawning sc.nodes, 0, false, 0, [], w, false⟩

/-- That a call of `doInParallel(f)` entered in world `w` can return `v`. -/
def shardedCache.doInParallelReturns {C ω : Type} (sc : shardedCache C)
    (f : C → ω → Int × ω) (w : ω) (v : Int) : Prop :=
  ∃ s, Par.Reaches f (sc.doInParallel w) s ∧ s.main = MainPC.returned ∧ s.sum = v

/-- The method `Len`: `sc.doInParallel(func(nc) int { return nc.Len() })`
returning `v`. -/
def shardedCache.Len {C ω K V : Type} (sc : shardedCache C) (n : Nodes C ω K V)
    (w : ω) (v : Int) : Prop :=
  sc.doInParallelReturns (fun nc => n.Len nc) w v

/-- The method `Cap`: `sc.doInParallel(func(nc) int { return nc.Cap() })`
returning `v`. -/
def shardedCache.Cap {C ω K V : Type} (sc : shardedCache C) (n : Nodes C ω K V)
    (w : ω) (v : Int) : Prop :=
  sc.doInParallelReturns (fun nc => n.Cap nc) w v

/-- The method `Clear`:
`_ = sc.doInParallel(func(nc) int { nc.Clear(); return 0 })` returning. -/
def shardedCache.Clear {C ω K V : Type} (sc : shardedCache C) (n : Nodes C ω K V)
    (w : ω) : Prop :=
  ∃ v : Int, sc.doInParallelReturns (fun nc w0 => (0, n.Clear nc w0)) w v

end cache

/-! ### The configurations `doInParallel` can be in -/

namespace cache

/-- A goroutine that has not completed its send on `output`. -/
def Worker.unsent {C : Type} : Worker C → Bool
  | Worker.started _ => true
  | Worker.sending _ => true
  | Worker.sent => false
  | Worker.exited => false

/-- The configurations in which the caller of `doInParallel` is still in its
`for` loop or at `wg.Wait()`, the channel is open, every started goroutine has
yet to complete its send, the WaitGroup counter equals their number, and there
is a node still to visit or a goroutine already started. -/
def Par.Stuck {C ω : Type} (s : Par C ω) : Prop :=
  s.closed = false ∧ s.crashed = false ∧ s.wg = (s.workers.length : Int) ∧
  (∀ wk ∈ s.workers, wk.unsent = true) ∧
  ((∃ rest, s.main = MainPC.spawning rest ∧ (rest ≠ [] ∨ s.workers ≠ [])) ∨
    (s.main = MainPC.waiting ∧ s.workers ≠ []))

end cache

/-! ## Concrete collaborators used to run the definitions -/

namespace example_engine
open cache

/-- A small engine keeping at most `size` pairs, most recently used first. -/
structure Store where
  size : Nat
  items : List (Nat × Value Nat)
  deriving DecidableEq, Repr

/-- A least-recently-used engine over `Store` with natural-number keys. -/
def engine : Engine Store Nat Nat where
  Add k x s := ⟨s.size, ((k, x) :: s.items.filter (fun p => p.1 != k)).take s.size⟩
  Get k s :=
    match s.items.lookup k with
    | some x => ((x, true), ⟨s.size, (k, x) :: s.items.filter (fun p => p.1 != k)⟩)
    | none => ((Value.nil, false), s)
  Peek k s :=
    match s.items.lookup k with
    | some x => (x, true)
    | none => (Value.nil, false)
  Contains k s := (s.items.lookup k).isSome
  Remove k s := ⟨s.size, s.items.filter (fun p => p.1 != k)⟩
  Purge s := ⟨s.size, []⟩
  Len s := s.items.length
  Keys s := (s.items.map Prod.fst).reverse
  Resize n s := ⟨n.toNat, s.items.take n.toNat⟩

/-- An lru wrapper named "test" of capacity 1 and default TTL one second,
empty. -/
def lruCache : lru.Cache Store Nat Nat :=
  ⟨engine, ⟨1, []⟩, false, {}, "test", 1, 1000000000⟩

/-- An arc wrapper with the same configuration. -/
def arcCache : arc.Cache Store Nat Nat :=
  ⟨engine, ⟨1, []⟩, false, {}, "test", 1, 1000000000⟩

end example_engine

namespace example_registry

/-- A named cache instance: an identity and the name its `Name()` returns. -/
structure Node where
  id : Nat
  name : String
  deriving DecidableEq, Repr

/-- The instance registered first under "cache-1". -/
def cache1 : Node := ⟨1, "cache-1"⟩

/-- An instance named "cache-2". -/
def cache2 : Node := ⟨2, "cache-2"⟩

/-- Another instance that also calls itself "cache-1". -/
def impostor : Node := ⟨3, "cache-1"⟩

end example_registry

namespace example_interceptor
open cache

/-- The two request types of the interceptor test: a Stringer and a struct
without a `String` method. -/
inductive Request where
  | testRequest (s : String) : Request
  | testRequestNotStringer : Request
  deriving DecidableEq, Repr

/-- The world of the example: what the cache holds and how often the handler
ran. -/
structure World where
  store : List (String × Value Nat)
  handled : Nat
  deriving DecidableEq, Repr

/-- The cache registered for the method "my-test-method". -/
def methodCache : example_registry.Node := ⟨7, "my-test-method"⟩

/-- The registry of the example, built by `Register` on a fresh registry. -/
def registry : cacheRegistry example_registry.Node :=
  (cacheRegistry.Register example_registry.Node.name NewRegistry [some methodCache]).1

/-- Collaborators: the registry above and one map-like cache without eviction
or expiry. -/
def env : Collaborators example_registry.Node World Request Nat where
  Stringer
    | Request.testRequest s => some s
    | Request.testRequestNotStringer => none
  GetByName name w := (registry.GetByName name, w)
  Get _ key w :=
    match w.store.lookup key with
    | some v => ((v, true), w)
    | none => ((Value.nil, false), w)
  Put _ key value w := { w with store := (key, value) :: w.store }

/-- A handler that succeeds with the response 42. -/
def okHandler : UnaryHandler World Unit Request Nat String :=
  fun _ _ w => ((Value.user 42, none), { w with handled := w.handled + 1 })

/-- A handler that fails with an error. -/
def failingHandler : UnaryHandler World Unit Request Nat String :=
  fun _ _ w => ((Value.nil, some "assert.AnError"), { w with handled := w.handled + 1 })

end example_interceptor

namespace example_sharded
open cache

/-- A ring over the given names that sends a key to the name at position
`key.length` modulo the number of names, and resolves nothing when empty. -/
def New (names : List String) : HashRing where
  GetNode key :=
    match names[key.length % names.length]? with
    | some name => (name, true)
    | none => ("", false)

/-- The world of the example: for each node (by id) the pairs it holds. -/
abbrev World := List (Nat × String × Value Nat)

/-- Node methods over `World`: each node is a map without eviction or expiry,
of capacity 10; keys are strings printed as themselves. -/
def nodes : Nodes example_registry.Node World String Nat where
  Sprintf key := key
  Cap _ w := (10, w)
  Len node w := (((w.filter (fun p => p.1 == node.id)).length : Int), w)
  Clear node w := w.filter (fun p => p.1 != node.id)
  Contains node key w := (w.any (fun p => p.1 == node.id && p.2.1 == key), w)
  Get node key w :=
    match w.find? (fun p => p.1 == node.id && p.2.1 == key) with
    | some p => ((p.2.2, true), w)
    | none => ((Value.nil, false), w)
  Peek node key w :=
    match w.find? (fun p => p.1 == node.id && p.2.1 == key) with
    | some p => ((p.2.2, true), w)
    | none => ((Value.nil, false), w)
  Put node key value w := (node.id, key, value) :: w
  Remove node key w := w.filter (fun p => !(p.1 == node.id && p.2.1 == key))

/-- The sharded cache built by `NewShardedCache` from one node. -/
def single : shardedCache example_registry.Node :=
  ⟨New ["cache-1"], [example_registry.cache1], [("cache-1", example_registry.cache1)]⟩

/-- The sharded cache over "cache-1" and "cache-2". -/
def pair : shardedCache example_registry.Node :=
  ⟨New ["cache-1", "cache-2"], [example_registry.cache1, example_registry.cache2],
    [("cache-2", example_registry.cache2), ("cache-1", example_registry.cache1)]⟩

end example_sharded

namespace example_ristretto
open cache

/-- The state of a small engine in the manner of ristretto: the items with
their expiry instants (the zero `Time` for none), the access counters and the
configured maximal cost. -/
structure Store where
  items : List (Nat × Value Nat × Time)
  hits : Nat
  misses : Nat
  maxCost : Int
  closed : Bool
  deriving DecidableEq, Repr

/-- The operations of the small engine.  A read of a key that is absent or
past its expiry is a miss; a write with a negative TTL is dropped. -/
def engine : ristretto.RistrettoCache Store Nat Nat where
  Get k now s :=
    match s.items.lookup k with
    | some (v, expires) =>
      if expires.IsZero || now.Before expires then ((v, true), { s with hits := s.hits + 1 })
      else ((Value.nil, false), { s with misses := s.misses + 1 })
    | none => ((Value.nil, false), { s with misses := s.misses + 1 })
  Set k v _ s := { s with items := (k, v, Time.zero) :: s.items.filter (fun p => p.1 != k) }
  SetWithTTL k v _ ttl now s :=
    if ttl < 0 then s
    else if ttl = 0 then
      { s with items := (k, v, Time.zero) :: s.items.filter (fun p => p.1 != k) }
    else { s with items := (k, v, now.Add ttl) :: s.items.filter (fun p => p.1 != k) }
  Del k s := { s with items := s.items.filter (fun p => p.1 != k) }
  Clear s := { s with items := [] }
  Close s := { s with closed := true }
  UpdateMaxCost n s := { s with maxCost := n }
  KeysAdded s := s.items.length
  CostEvicted _ := 0

/-- A library constructor in the manner of `ristretto.NewCache`: it refuses a
configuration in which `NumCounters`, `MaxCost` or `BufferItems` is zero. -/
def NewCache (config : ristretto.RistrettoConfig) :
    Except String (ristretto.RistrettoCache Store Nat Nat × Store) :=
  if config.NumCounters = 0 then Except.error "NumCounters can't be zero"
  else if config.MaxCost = 0 then Except.error "MaxCost can't be zero"
  else if config.BufferItems = 0 then Except.error "BufferItems can't be zero"
  else Except.ok (engine, ⟨[], 0, 0, config.MaxCost, false⟩)

/-- The cache of the wrapper test: `New("test", 1, time.Minute)`. -/
def testCache : ristretto.Cache Store Nat Nat :=
  ⟨engine, ⟨[], 0, 0, 1, false⟩, false, {}, "test", 1, 60000000000, 1⟩

end example_ristretto

namespace example_engine
open cache

/-- A constructor in the manner of `lru.NewARC`: it refuses a size that is not
positive. -/
def NewARC (size : Int) : Except String (Engine Store Nat Nat × Store) :=
  if size ≤ 0 then Except.error "Must provide a positive size"
  else Except.ok (engine, ⟨size.toNat, []⟩)

/-- A constructor in the manner of `lru.NewWithEvict`, with a callback that is
never called. -/
def NewWithEvict (size : Int) (_ : Option Unit) :
    Except String (Engine Store Nat Nat × Store) :=
  NewARC size

end example_engine

namespace example_callback
open cache

/-- A callback that appends the pair it is called with to the world, which is
the list of its calls so far. -/
def recorder {K V : Type} : K → Value V → List (K × Value V) → List (K × Value V) :=
  fun key value calls => calls ++ [(key, value)]

end example_callback

/-! ## TTL expiry in the lru and arc wrappers -/

namespace cache

/-- The expiry test of `Get` and `Peek` on an entry written by `PutWithTTL`
with `ttl` at `t0`, read at `t`. -/
theorem expiry_test_iff (ttl : Int) (t0 t : Time) :
    (((expiresAt ttl t0).IsZero || t.Before (expiresAt ttl t0)) = true) ↔
      (ttl ≤ 0 ∨ (t.ns : Int) < (t0.ns : Int) + ttl) := by
  unfold expiresAt
  by_cases h : (0 : Int) < ttl
  · simp only [gt_iff_lt, h, if_true, Time.IsZero, Time.Add, Time.Before, Bool.or_eq_true,
      beq_iff_eq, decide_eq_true_eq]
    omega
  · have h0 : ttl ≤ 0 := by omega
    simp [h, h0, Time.IsZero, Time.zero]

end cache

/-- The lru `Get` on a cache whose engine returns the entry for the key. -/
theorem lru.Get_of_resident_lru {σ K V : Type} (c : lru.Cache σ K V) (key : K)
    (value : cache.Value V) (expires t : cache.Time)
    (h : (c.engine.Get key c.st).1 = (cache.Value.entry value expires, true)) :
    (c.Get key t).1 =
      if expires.IsZero || t.Before expires then cache.Result.ret (value, true)
      else cache.Result.ret (cache.Value.nil, false) := by
  unfold lru.Cache.Get
  simp only [h]
  split <;> rfl

/-- The arc `Get` on a cache whose engine returns the entry for the key. -/
theorem arc.Get_of_resident_arc {σ K V : Type} (c : arc.Cache σ K V) (key : K)
    (value : cache.Value V) (expires t : cache.Time)
    (h : (c.engine.Get key c.st).1 = (cache.Value.entry value expires, true)) :
    (c.Get key t).1 =
      if expires.IsZero || t.Before expires then cache.Result.ret (value, true)
      else cache.Result.ret (cache.Value.nil, false) := by
  unfold arc.Cache.Get
  simp only [h]
  split <;> rfl

/-- C1: in the lru and arc wrappers, `PutWithTTL(key, value, ttl)` at instant
`t0` hands the engine the entry `{value, expiresAt ttl t0}`; and on every cache
whose engine still returns that entry for `key`, `Get(key)` at instant `t`
returns `(value, true)` if and only if `ttl <= 0` or `t < t0 + ttl`, and
returns `(nil, false)` otherwise. -/
theorem C1_ttl_expiry_boundary {σ K V : Type} (key : K) (value : cache.Value V)
    (ttl : cache.Duration) (t0 t : cache.Time) :
    ((∀ c : lru.Cache σ K V,
        (c.PutWithTTL key value ttl t0).st =
          c.engine.Add key (cache.Value.entry value (cache.expiresAt ttl t0)) c.st) ∧
      (∀ c : lru.Cache σ K V,
        (c.engine.Get key c.st).1 =
          (cache.Value.entry value (cache.expiresAt ttl t0), true) →
        ((c.Get key t).1 = cache.Result.ret (value, true) ↔
            (ttl ≤ 0 ∨ (t.ns : Int) < (t0.ns : Int) + ttl)) ∧
          (¬ (ttl ≤ 0 ∨ (t.ns : Int) < (t0.ns : Int) + ttl) →
            (c.Get key t).1 = cache.Result.ret (cache.Value.nil, false)))) ∧
    ((∀ c : arc.Cache σ K V,
        (c.PutWithTTL key value ttl t0).st =
          c.engine.Add key (cache.Value.entry value (cache.expiresAt ttl t0)) c.st) ∧
      (∀ c : arc.Cache σ K V,
        (c.engine.Get key c.st).1 =
          (cache.Value.entry value (cache.expiresAt ttl t0), true) →
        ((c.Get key t).1 = cache.Result.ret (value, true) ↔
            (ttl ≤ 0 ∨ (t.ns : Int) < (t0.ns : Int) + ttl)) ∧
          (¬ (ttl ≤ 0 ∨ (t.ns : Int) < (t0.ns : Int) + ttl) →
            (c.Get key t).1 = cache.Result.ret (cache.Value.nil, false)))) := by
  have key_fact := cache.expiry_test_iff ttl t0 t
  refine ⟨⟨fun _ => rfl, fun c h => ?_⟩, ⟨fun _ => rfl, fun c h => ?_⟩⟩
  · rw [lru.Get_of_resident_lru c key value _ t h]
    by_cases hc : (ttl ≤ 0 ∨ (t.ns : Int) < (t0.ns : Int) + ttl)
    · have ht := key_fact.mpr hc
      simp only [ht, if_true, hc, true_iff, not_true_eq_false, false_implies, and_self]
    · have ht : ¬ (((cache.expiresAt ttl t0).IsZero || t.Before (cache.expiresAt ttl t0)) = true) :=
        fun hh => hc (key_fact.mp hh)
      simp [ht, hc]
  · rw [arc.Get_of_resident_arc c key value _ t h]
    by_cases hc : (ttl ≤ 0 ∨ (t.ns : Int) < (t0.ns : Int) + ttl)
    · have ht := key_fact.mpr hc
      simp only [ht, if_true, hc, true_iff, not_true_eq_false, false_implies, and_self]
    · have ht : ¬ (((cache.expiresAt ttl t0).IsZero || t.Before (cache.expiresAt ttl t0)) = true) :=
        fun hh => hc (key_fact.mp hh)
      simp [ht, hc]

/-- C1 at the scenario of the wrapper tests: capacity 1, `PutWithTTL(1, 1, 1ns)`
at instant 100; the entry is resident, `Get(1)` at instant 101 reports
`(nil, false)` in both wrappers. -/
theorem C1_ttl_expiry_boundary_witness :
    ((example_engine.lruCache.PutWithTTL 1 (cache.Value.user 1) 1 ⟨100⟩).Get 1 ⟨101⟩).1 =
        cache.Result.ret (cache.Value.nil, false) ∧
    ((example_engine.arcCache.PutWithTTL 1 (cache.Value.user 1) 1 ⟨100⟩).Get 1 ⟨101⟩).1 =
        cache.Result.ret (cache.Value.nil, false) :=
  ⟨(((C1_ttl_expiry_boundary 1 (cache.Value.user 1) 1 ⟨100⟩ ⟨101⟩).1.2
      (example_engine.lruCache.PutWithTTL 1 (cache.Value.user 1) 1 ⟨100⟩) (by decide)).2
      (by decide)),
   (((C1_ttl_expiry_boundary 1 (cache.Value.user 1) 1 ⟨100⟩ ⟨101⟩).2.2
      (example_engine.arcCache.PutWithTTL 1 (cache.Value.user 1) 1 ⟨100⟩) (by decide)).2
      (by decide))⟩

/-! ## The registry -/

namespace cache

/-- The method `Register` never changes what a name already in the map is bound to. -/
theorem Register_lookup_preserved {C : Type} (Name : C → String) (n : String) (c : C) :
    ∀ (cc : List (Option C)) (r : cacheRegistry C),
      r.caches.lookup n = some c →
      (cacheRegistry.Register Name r cc).1.caches.lookup n = some c := by
  intro cc
  induction cc with
  | nil => intro r h; simpa [cacheRegistry.Register] using h
  | cons x cc ih =>
    intro r h
    cases x with
    | none => simpa [cacheRegistry.Register] using h
    | some s =>
      unfold cacheRegistry.Register
      split
      · exact h
      · rename_i hs
        apply ih
        have hne : n ≠ Name s := by
          intro heq
          apply hs
          rw [← heq, h]
          rfl
        simp only [List.lookup_cons]
        have : (n == Name s) = false := by simpa using hne
        rw [this]
        exact h

/-- The method `Register` fails on a batch holding a cache whose name is in the map. -/
theorem Register_error_of_registered {C : Type} (Name : C → String) (s : C) :
    ∀ (cc : List (Option C)) (r : cacheRegistry C),
      (r.caches.lookup (Name s)).isSome = true → some s ∈ cc →
      (cacheRegistry.Register Name r cc).2 ≠ none := by
  intro cc
  induction cc with
  | nil => intro r _ hm; simp at hm
  | cons x cc ih =>
    intro r h hm
    cases x with
    | none => simp [cacheRegistry.Register]
    | some s' =>
      unfold cacheRegistry.Register
      split
      · simp
      · rename_i hs'
        rcases List.mem_cons.mp hm with heq | hmem
        · have : s = s' := by simpa using heq
          exact absurd (this ▸ h) hs'
        · apply ih _ _ hmem
          simp only [List.lookup_cons]
          cases hb : (Name s == Name s')
          · simpa using h
          · rfl

end cache

/-- C2: if name `n` is mapped to cache `c`, then `Register` of any batch that
contains a cache named `n` returns an error, and after `Register` of any batch
at all `GetByName(n)` still returns `(c, true)`. -/
theorem C2_registered_name_never_overwritten {C : Type} (Name : C → String)
    (r : cache.cacheRegistry C) (n : String) (c : C)
    (hreg : r.GetByName n = (some c, true)) :
    (∀ (cc : List (Option C)) (s : C), some s ∈ cc → Name s = n →
        (cache.cacheRegistry.Register Name r cc).2 ≠ none ∧
        (cache.cacheRegistry.Register Name r cc).1.GetByName n = (some c, true)) ∧
    (∀ cc : List (Option C),
        (cache.cacheRegistry.Register Name r cc).1.GetByName n = (some c, true)) := by
  have hl : r.caches.lookup n = some c := by
    have := congrArg Prod.fst hreg
    simpa [cache.cacheRegistry.GetByName] using this
  have keep : ∀ cc : List (Option C),
      (cache.cacheRegistry.Register Name r cc).1.GetByName n = (some c, true) := by
    intro cc
    have := cache.Register_lookup_preserved Name n c cc r hl
    simp [cache.cacheRegistry.GetByName, this]
  refine ⟨fun cc s hm hn => ⟨?_, keep cc⟩, keep⟩
  apply cache.Register_error_of_registered Name s cc r _ hm
  rw [hn, hl]
  rfl

/-- C2 on a registry holding `cache1` under "cache-1": a batch with another
cache of that name is refused and "cache-1" still resolves to `cache1`. -/
theorem C2_registered_name_never_overwritten_witness :
    (cache.cacheRegistry.Register example_registry.Node.name
        (cache.cacheRegistry.Register example_registry.Node.name cache.NewRegistry
          [some example_registry.cache1]).1
        [some example_registry.cache2, some example_registry.impostor]).2 ≠ none ∧
    (cache.cacheRegistry.Register example_registry.Node.name
        (cache.cacheRegistry.Register example_registry.Node.name cache.NewRegistry
          [some example_registry.cache1]).1
        [some example_registry.cache2, some example_registry.impostor]).1.GetByName "cache-1" =
      (some example_registry.cache1, true) :=
  (C2_registered_name_never_overwritten example_registry.Node.name
    (cache.cacheRegistry.Register example_registry.Node.name cache.NewRegistry
      [some example_registry.cache1]).1 "cache-1" example_registry.cache1 (by decide)).1
    [some example_registry.cache2, some example_registry.impostor] example_registry.impostor
    (by decide) (by decide)

namespace cache

/-- The method `GetByName` returns `(some c, true)` exactly when the map binds the name
to `c`. -/
theorem GetByName_eq_some_iff {C : Type} (r : cacheRegistry C) (m : String) (c : C) :
    r.GetByName m = (some c, true) ↔ r.caches.lookup m = some c := by
  unfold cacheRegistry.GetByName
  constructor
  · intro h
    exact congrArg Prod.fst h
  · intro h
    rw [h]
    rfl

/-- The method `GetByName` reports not-found exactly when the map has no binding. -/
theorem GetByName_eq_none_iff {C : Type} (r : cacheRegistry C) (m : String) :
    r.GetByName m = (none, false) ↔ r.caches.lookup m = none := by
  unfold cacheRegistry.GetByName
  constructor
  · intro h
    exact congrArg Prod.fst h
  · intro h
    rw [h]
    rfl

/-- A batch of non-nil caches with pairwise distinct names, none of them in the
map, is registered whole: no error, and the map afterwards binds exactly the
batch on top of what it held. -/
theorem Register_fresh_batch {C : Type} (Name : C → String) :
    ∀ (batch : List C) (r : cacheRegistry C),
      (∀ s ∈ batch, r.caches.lookup (Name s) = none) →
      (batch.map Name).Nodup →
      (cacheRegistry.Register Name r (batch.map some)).2 = none ∧
      ∀ (m : String) (c : C),
        (cacheRegistry.Register Name r (batch.map some)).1.caches.lookup m = some c ↔
          ((c ∈ batch ∧ Name c = m) ∨ r.caches.lookup m = some c) := by
  intro batch
  induction batch with
  | nil =>
    intro r _ _
    simp [cacheRegistry.Register]
  | cons s rest ih =>
    intro r hfresh hnd
    have hs : r.caches.lookup (Name s) = none := hfresh s (List.mem_cons_self _ _)
    rw [List.map_cons, List.nodup_cons] at hnd
    have hfresh' : ∀ s' ∈ rest,
        (⟨(Name s, s) :: r.caches⟩ : cacheRegistry C).caches.lookup (Name s') = none := by
      intro s' hs'
      have hne : Name s' ≠ Name s := by
        intro heq
        exact hnd.1 (heq ▸ List.mem_map_of_mem Name hs')
      have hb : (Name s' == Name s) = false := by simpa using hne
      simp only [List.lookup_cons, hb]
      exact hfresh s' (List.mem_cons_of_mem _ hs')
    have step : cacheRegistry.Register Name r ((s :: rest).map some) =
        cacheRegistry.Register Name ⟨(Name s, s) :: r.caches⟩ (rest.map some) := by
      simp [cacheRegistry.Register, hs]
    rw [step]
    obtain ⟨herr, hlook⟩ := ih ⟨(Name s, s) :: r.caches⟩ hfresh' hnd.2
    refine ⟨herr, fun m c => ?_⟩
    rw [hlook m c]
    simp only [List.lookup_cons, List.mem_cons]
    cases hb : (m == Name s)
    · have hne : m ≠ Name s := by simpa using hb
      constructor
      · rintro (⟨hc, hn⟩ | hl)
        · exact Or.inl ⟨Or.inr hc, hn⟩
        · exact Or.inr hl
      · rintro (⟨hc | hc, hn⟩ | hl)
        · exact absurd (hc ▸ hn).symm hne
        · exact Or.inl ⟨hc, hn⟩
        · exact Or.inr hl
    · have heq : m = Name s := by simpa using hb
      constructor
      · rintro (⟨hc, hn⟩ | hl)
        · exact Or.inl ⟨Or.inr hc, hn⟩
        · refine Or.inl ⟨Or.inl ?_, ?_⟩
          · exact (Option.some.inj hl).symm
          · rw [← Option.some.inj hl, heq]
      · rintro (⟨hc | hc, hn⟩ | hl)
        · exact Or.inr (by rw [hc])
        · exfalso
          apply hnd.1
          rw [← heq, ← hn]
          exact List.mem_map_of_mem Name hc
        · rw [heq, hs] at hl
          exact absurd hl (by simp)

end cache

/-- C3: for a batch of non-nil caches with pairwise distinct names, `Register`
on a fresh registry returns no error; afterwards `GetByName(m)` returns
`(c, true)` exactly when `c` is the batch entry named `m`, and reports
not-found for every name no batch entry carries; on the fresh registry itself
every name is not-found. -/
theorem C3_register_then_lookup {C : Type} (Name : C → String) (batch : List C)
    (hnd : (batch.map Name).Nodup) :
    (cache.cacheRegistry.Register Name cache.NewRegistry (batch.map some)).2 = none ∧
    (∀ (m : String) (c : C),
      (cache.cacheRegistry.Register Name cache.NewRegistry (batch.map some)).1.GetByName m =
          (some c, true) ↔ (c ∈ batch ∧ Name c = m)) ∧
    (∀ m : String, (∀ c ∈ batch, Name c ≠ m) →
      (cache.cacheRegistry.Register Name cache.NewRegistry (batch.map some)).1.GetByName m =
          (none, false)) ∧
    (∀ m : String, (cache.NewRegistry : cache.cacheRegistry C).GetByName m = (none, false)) := by
  obtain ⟨herr, hlook⟩ := cache.Register_fresh_batch Name batch cache.NewRegistry
    (fun _ _ => rfl) hnd
  have hiff : ∀ (m : String) (c : C),
      (cache.cacheRegistry.Register Name cache.NewRegistry (batch.map some)).1.GetByName m =
          (some c, true) ↔ (c ∈ batch ∧ Name c = m) := by
    intro m c
    rw [cache.GetByName_eq_some_iff, hlook m c]
    simp [cache.NewRegistry]
  refine ⟨herr, hiff, fun m hm => ?_, fun m => rfl⟩
  rw [cache.GetByName_eq_none_iff]
  cases hl : (cache.cacheRegistry.Register Name cache.NewRegistry
      (batch.map some)).1.caches.lookup m with
  | none => rfl
  | some c =>
    have := (hiff m c).mp ((cache.GetByName_eq_some_iff _ m c).mpr hl)
    exact absurd this.2 (hm c this.1)

/-- C3 at the registry test: after registering "cache-1" and "cache-2",
"cache-1" resolves to the registered instance and "missing" is not found. -/
theorem C3_register_then_lookup_witness :
    (cache.cacheRegistry.Register example_registry.Node.name cache.NewRegistry
        ([example_registry.cache1, example_registry.cache2].map some)).2 = none ∧
    (cache.cacheRegistry.Register example_registry.Node.name cache.NewRegistry
        ([example_registry.cache1, example_registry.cache2].map some)).1.GetByName "cache-1" =
      (some example_registry.cache1, true) ∧
    (cache.cacheRegistry.Register example_registry.Node.name cache.NewRegistry
        ([example_registry.cache1, example_registry.cache2].map some)).1.GetByName "missing" =
      (none, false) :=
  ⟨(C3_register_then_lookup example_registry.Node.name
      [example_registry.cache1, example_registry.cache2] (by decide)).1,
   ((C3_register_then_lookup example_registry.Node.name
      [example_registry.cache1, example_registry.cache2] (by decide)).2.1
      "cache-1" example_registry.cache1).mpr (by decide),
   (C3_register_then_lookup example_registry.Node.name
      [example_registry.cache1, example_registry.cache2] (by decide)).2.2.1
      "missing" (by decide)⟩

/-! ## The interceptor -/

/-- C4: for a Stringer request, if the registry has a cache under
`info.FullMethod` and that cache's `Get(request.String())` returns `(v, true)`,
the interceptor returns `(v, nil)`; its calls are the registry lookup and the
`Get` only, so the handler is invoked zero times and nothing is `Put`. -/
theorem C4_interceptor_hit {C ω Ctx Req V E : Type} (i : cache.Collaborators C ω Req V)
    (ctx : Ctx) (request : Req) (fullMethod : String)
    (handler : cache.UnaryHandler ω Ctx Req V E) (w : ω)
    (key : String) (c : C) (v : cache.Value V)
    (hs : i.Stringer request = some key)
    (hr : (i.GetByName fullMethod w).1 = (some c, true))
    (hg : (i.Get c key (i.GetByName fullMethod w).2).1 = (v, true)) :
    (cache.unaryServer i ctx request fullMethod handler w).result = cache.Result.ret (v, none) ∧
    (cache.unaryServer i ctx request fullMethod handler w).calls =
      [cache.Call.GetByName fullMethod, cache.Call.Get c key] ∧
    ((cache.unaryServer i ctx request fullMethod handler w).calls.filter
      cache.Call.isHandler).length = 0 ∧
    ((cache.unaryServer i ctx request fullMethod handler w).calls.filter
      cache.Call.isPut).length = 0 ∧
    (cache.unaryServer i ctx request fullMethod handler w).world =
      (i.Get c key (i.GetByName fullMethod w).2).2 := by
  unfold cache.unaryServer
  simp only [hs, hr, hg]
  simp [cache.Call.isHandler, cache.Call.isPut]

/-- C4 at the interceptor test "found in cache": the cached response comes
back and the handler count of the world stays zero. -/
theorem C4_interceptor_hit_witness :
    (cache.unaryServer example_interceptor.env ()
        (example_interceptor.Request.testRequest "my-test-request") "my-test-method"
        example_interceptor.okHandler
        ⟨[("my-test-request", cache.Value.user 5)], 0⟩).result =
      cache.Result.ret (cache.Value.user 5, none) ∧
    (cache.unaryServer example_interceptor.env ()
        (example_interceptor.Request.testRequest "my-test-request") "my-test-method"
        example_interceptor.okHandler
        ⟨[("my-test-request", cache.Value.user 5)], 0⟩).world.handled = 0 :=
  ⟨(C4_interceptor_hit example_interceptor.env ()
      (example_interceptor.Request.testRequest "my-test-request") "my-test-method"
      example_interceptor.okHandler ⟨[("my-test-request", cache.Value.user 5)], 0⟩
      "my-test-request" example_interceptor.methodCache (cache.Value.user 5)
      rfl (by decide) (by decide)).1,
   by
    rw [(C4_interceptor_hit example_interceptor.env ()
      (example_interceptor.Request.testRequest "my-test-request") "my-test-method"
      example_interceptor.okHandler ⟨[("my-test-request", cache.Value.user 5)], 0⟩
      "my-test-request" example_interceptor.methodCache (cache.Value.user 5)
      rfl (by decide) (by decide)).2.2.2.2]
    decide⟩

/-- C5: for a Stringer request whose cache, registered under
`info.FullMethod`, reports a miss for `request.String()`, if the handler
returns `(r, nil)` then the interceptor returns `(r, nil)`; its calls are the
registry lookup, the `Get`, one handler invocation and one
`Put(request.String(), r)` on that cache, in this order. -/
theorem C5_interceptor_miss_success {C ω Ctx Req V E : Type}
    (i : cache.Collaborators C ω Req V) (ctx : Ctx) (request : Req) (fullMethod : String)
    (handler : cache.UnaryHandler ω Ctx Req V E) (w : ω)
    (key : String) (c : C) (r : cache.Value V)
    (hs : i.Stringer request = some key)
    (hr : (i.GetByName fullMethod w).1 = (some c, true))
    (hg : (i.Get c key (i.GetByName fullMethod w).2).1.2 = false)
    (hh : (handler ctx request (i.Get c key (i.GetByName fullMethod w).2).2).1 = (r, none)) :
    (cache.unaryServer i ctx request fullMethod handler w).result = cache.Result.ret (r, none) ∧
    (cache.unaryServer i ctx request fullMethod handler w).calls =
      [cache.Call.GetByName fullMethod, cache.Call.Get c key, cache.Call.handler ctx request,
       cache.Call.Put c key r] ∧
    ((cache.unaryServer i ctx request fullMethod handler w).calls.filter
      cache.Call.isHandler).length = 1 ∧
    ((cache.unaryServer i ctx request fullMethod handler w).calls.filter
      cache.Call.isPut).length = 1 ∧
    (cache.unaryServer i ctx request fullMethod handler w).world =
      i.Put c key r (handler ctx request (i.Get c key (i.GetByName fullMethod w).2).2).2 := by
  have hg' : (i.Get c key (i.GetByName fullMethod w).2).1 =
      ((i.Get c key (i.GetByName fullMethod w).2).1.1, false) := by
    rw [← hg]
  unfold cache.unaryServer
  simp only [hs, hr]
  rw [hg']
  simp only [hh]
  simp [cache.Call.isHandler, cache.Call.isPut]

/-- C5 at the interceptor test "not found in cache, successful response": the
response 42 comes back, the handler ran once and the cache now holds it. -/
theorem C5_interceptor_miss_success_witness :
    (cache.unaryServer example_interceptor.env ()
        (example_interceptor.Request.testRequest "my-test-request") "my-test-method"
        example_interceptor.okHandler ⟨[], 0⟩).result =
      cache.Result.ret (cache.Value.user 42, none) ∧
    (cache.unaryServer example_interceptor.env ()
        (example_interceptor.Request.testRequest "my-test-request") "my-test-method"
        example_interceptor.okHandler ⟨[], 0⟩).world =
      ⟨[("my-test-request", cache.Value.user 42)], 1⟩ :=
  ⟨(C5_interceptor_miss_success example_interceptor.env ()
      (example_interceptor.Request.testRequest "my-test-request") "my-test-method"
      example_interceptor.okHandler ⟨[], 0⟩
      "my-test-request" example_interceptor.methodCache (cache.Value.user 42)
      rfl (by decide) (by decide) (by decide)).1,
   by
    rw [(C5_interceptor_miss_success example_interceptor.env ()
      (example_interceptor.Request.testRequest "my-test-request") "my-test-method"
      example_interceptor.okHandler ⟨[], 0⟩
      "my-test-request" example_interceptor.methodCache (cache.Value.user 42)
      rfl (by decide) (by decide) (by decide)).2.2.2.2]
    decide⟩

/-- C6: for a Stringer request whose cache reports a miss, if the handler
returns `(r, err)` with `err` non-nil then the interceptor returns exactly
`(r, err)`; its calls are the registry lookup, the `Get` and the handler
invocation, so no `Put` is performed, and the world is as the handler left
it. -/
theorem C6_interceptor_miss_failure {C ω Ctx Req V E : Type}
    (i : cache.Collaborators C ω Req V) (ctx : Ctx) (request : Req) (fullMethod : String)
    (handler : cache.UnaryHandler ω Ctx Req V E) (w : ω)
    (key : String) (c : C) (r : cache.Value V) (err : E)
    (hs : i.Stringer request = some key)
    (hr : (i.GetByName fullMethod w).1 = (some c, true))
    (hg : (i.Get c key (i.GetByName fullMethod w).2).1.2 = false)
    (hh : (handler ctx request (i.Get c key (i.GetByName fullMethod w).2).2).1 =
      (r, some err)) :
    (cache.unaryServer i ctx request fullMethod handler w).result =
      cache.Result.ret (r, some err) ∧
    (cache.unaryServer i ctx request fullMethod handler w).calls =
      [cache.Call.GetByName fullMethod, cache.Call.Get c key, cache.Call.handler ctx request] ∧
    ((cache.unaryServer i ctx request fullMethod handler w).calls.filter
      cache.Call.isPut).length = 0 ∧
    (cache.unaryServer i ctx request fullMethod handler w).world =
      (handler ctx request (i.Get c key (i.GetByName fullMethod w).2).2).2 := by
  have hg' : (i.Get c key (i.GetByName fullMethod w).2).1 =
      ((i.Get c key (i.GetByName fullMethod w).2).1.1, false) := by
    rw [← hg]
  unfold cache.unaryServer
  simp only [hs, hr]
  rw [hg']
  simp only [hh]
  simp [cache.Call.isPut]

/-- C6 at the interceptor test "not found in cache, failed response": the
handler's error comes back and the cache stays empty. -/
theorem C6_interceptor_miss_failure_witness :
    (cache.unaryServer example_interceptor.env ()
        (example_interceptor.Request.testRequest "my-test-request") "my-test-method"
        example_interceptor.failingHandler ⟨[], 0⟩).result =
      cache.Result.ret (cache.Value.nil, some "assert.AnError") ∧
    (cache.unaryServer example_interceptor.env ()
        (example_interceptor.Request.testRequest "my-test-request") "my-test-method"
        example_interceptor.failingHandler ⟨[], 0⟩).world = ⟨[], 1⟩ :=
  ⟨(C6_interceptor_miss_failure example_interceptor.env ()
      (example_interceptor.Request.testRequest "my-test-request") "my-test-method"
      example_interceptor.failingHandler ⟨[], 0⟩
      "my-test-request" example_interceptor.methodCache cache.Value.nil "assert.AnError"
      rfl (by decide) (by decide) (by decide)).1,
   by
    rw [(C6_interceptor_miss_failure example_interceptor.env ()
      (example_interceptor.Request.testRequest "my-test-request") "my-test-method"
      example_interceptor.failingHandler ⟨[], 0⟩
      "my-test-request" example_interceptor.methodCache cache.Value.nil "assert.AnError"
      rfl (by decide) (by decide) (by decide)).2.2.2]
    decide⟩

/-- C7: if the request is not a Stringer, the interceptor's only call is one
handler invocation with the original context and request (the registry is not
consulted) and it returns the handler's response and error unchanged; if the
request is a Stringer but the registry reports no cache under
`info.FullMethod`, its calls are the registry lookup and one such handler
invocation, and it again returns the handler's response and error unchanged.
In both cases no cache `Get` or `Put` is made. -/
theorem C7_interceptor_bypass {C ω Ctx Req V E : Type}
    (i : cache.Collaborators C ω Req V) (ctx : Ctx) (request : Req) (fullMethod : String)
    (handler : cache.UnaryHandler ω Ctx Req V E) (w : ω) :
    (i.Stringer request = none →
      (cache.unaryServer i ctx request fullMethod handler w).result =
        cache.Result.ret (handler ctx request w).1 ∧
      (cache.unaryServer i ctx request fullMethod handler w).calls =
        [cache.Call.handler ctx request] ∧
      (cache.unaryServer i ctx request fullMethod handler w).world =
        (handler ctx request w).2) ∧
    (∀ key : String, i.Stringer request = some key →
      (i.GetByName fullMethod w).1.2 = false →
      (cache.unaryServer i ctx request fullMethod handler w).result =
        cache.Result.ret (handler ctx request (i.GetByName fullMethod w).2).1 ∧
      (cache.unaryServer i ctx request fullMethod handler w).calls =
        [cache.Call.GetByName fullMethod, cache.Call.handler ctx request] ∧
      (cache.unaryServer i ctx request fullMethod handler w).world =
        (handler ctx request (i.GetByName fullMethod w).2).2) ∧
    ((i.Stringer request = none ∨ (i.GetByName fullMethod w).1.2 = false) →
      ((cache.unaryServer i ctx request fullMethod handler w).calls.filter
        cache.Call.isHandler).length = 1 ∧
      ((cache.unaryServer i ctx request fullMethod handler w).calls.filter
        cache.Call.isGet).length = 0 ∧
      ((cache.unaryServer i ctx request fullMethod handler w).calls.filter
        cache.Call.isPut).length = 0) := by
  have hmiss : (i.GetByName fullMethod w).1.2 = false →
      (i.GetByName fullMethod w).1 = ((i.GetByName fullMethod w).1.1, false) := by
    intro h
    rw [← h]
  refine ⟨fun hs => ?_, fun key hs hr => ?_, fun h => ?_⟩
  · unfold cache.unaryServer
    simp [hs]
  · unfold cache.unaryServer
    simp only [hs]
    rw [hmiss hr]
    exact ⟨rfl, rfl, rfl⟩
  · unfold cache.unaryServer
    cases hs : i.Stringer request with
    | none => simp [cache.Call.isHandler, cache.Call.isGet, cache.Call.isPut]
    | some key =>
      rcases h with h | h
      · rw [hs] at h
        exact absurd h (by simp)
      · simp only
        rw [hmiss h]
        simp [cache.Call.isHandler, cache.Call.isGet, cache.Call.isPut]

/-- C7 at the interceptor tests "request is not a stringer" and "there is no
cache for the given method": the failing handler's result comes back in
both, after one handler run, and the registry is consulted only in the
second. -/
theorem C7_interceptor_bypass_witness :
    ((cache.unaryServer example_interceptor.env ()
        example_interceptor.Request.testRequestNotStringer "my-test-method"
        example_interceptor.failingHandler ⟨[], 0⟩).result =
      cache.Result.ret (cache.Value.nil, some "assert.AnError") ∧
     (cache.unaryServer example_interceptor.env ()
        example_interceptor.Request.testRequestNotStringer "my-test-method"
        example_interceptor.failingHandler ⟨[], 0⟩).calls =
      [cache.Call.handler () example_interceptor.Request.testRequestNotStringer] ∧
     (cache.unaryServer example_interceptor.env ()
        example_interceptor.Request.testRequestNotStringer "my-test-method"
        example_interceptor.failingHandler ⟨[], 0⟩).world = ⟨[], 1⟩) ∧
    ((cache.unaryServer example_interceptor.env ()
        (example_interceptor.Request.testRequest "my-test-request") "other-method"
        example_interceptor.failingHandler ⟨[], 0⟩).result =
      cache.Result.ret (cache.Value.nil, some "assert.AnError") ∧
     (cache.unaryServer example_interceptor.env ()
        (example_interceptor.Request.testRequest "my-test-request") "other-method"
        example_interceptor.failingHandler ⟨[], 0⟩).calls =
      [cache.Call.GetByName "other-method",
       cache.Call.handler () (example_interceptor.Request.testRequest "my-test-request")] ∧
     (cache.unaryServer example_interceptor.env ()
        (example_interceptor.Request.testRequest "my-test-request") "other-method"
        example_interceptor.failingHandler ⟨[], 0⟩).world = ⟨[], 1⟩) :=
  ⟨(C7_interceptor_bypass example_interceptor.env ()
      example_interceptor.Request.testRequestNotStringer "my-test-method"
      example_interceptor.failingHandler ⟨[], 0⟩).1 rfl,
   (C7_interceptor_bypass example_interceptor.env ()
      (example_interceptor.Request.testRequest "my-test-request") "other-method"
      example_interceptor.failingHandler ⟨[], 0⟩).2.1 "my-test-request" rfl (by decide)⟩

/-- C8: with a cache registered under the method (the registry lookup finds it
and leaves the world alone) that returns on `Get` what was last `Put` under
the key, take two consecutive intercepted calls under the same `FullMethod`
whose requests have the same `String()`.  If the first call misses and its
handler succeeds with response `r`, then both calls return `(r, nil)`, the
second call does not invoke its handler, and the handler invocations across
both calls number exactly one. -/
theorem C8_interceptor_memoizes {C ω Ctx Req V E : Type}
    (i : cache.Collaborators C ω Req V) (fullMethod : String) (c : C) (key : String)
    (ctx1 ctx2 : Ctx) (req1 req2 : Req)
    (handler1 handler2 : cache.UnaryHandler ω Ctx Req V E) (w : ω) (r : cache.Value V)
    (hs1 : i.Stringer req1 = some key) (hs2 : i.Stringer req2 = some key)
    (hreg : ∀ w' : ω, i.GetByName fullMethod w' = ((some c, true), w'))
    (hputget : ∀ (w' : ω) (v : cache.Value V), (i.Get c key (i.Put c key v w')).1 = (v, true))
    (hmiss : (i.Get c key w).1.2 = false)
    (hh : (handler1 ctx1 req1 (i.Get c key w).2).1 = (r, none)) :
    (cache.unaryServer i ctx1 req1 fullMethod handler1 w).result = cache.Result.ret (r, none) ∧
    (cache.unaryServer i ctx2 req2 fullMethod handler2
        (cache.unaryServer i ctx1 req1 fullMethod handler1 w).world).result =
      cache.Result.ret (r, none) ∧
    ((cache.unaryServer i ctx2 req2 fullMethod handler2
        (cache.unaryServer i ctx1 req1 fullMethod handler1 w).world).calls.filter
      cache.Call.isHandler).length = 0 ∧
    (((cache.unaryServer i ctx1 req1 fullMethod handler1 w).calls ++
      (cache.unaryServer i ctx2 req2 fullMethod handler2
        (cache.unaryServer i ctx1 req1 fullMethod handler1 w).world).calls).filter
      cache.Call.isHandler).length = 1 := by
  have hmiss' : (i.Get c key w).1 = ((i.Get c key w).1.1, false) := by
    rw [← hmiss]
  have first : cache.unaryServer i ctx1 req1 fullMethod handler1 w =
      ⟨cache.Result.ret (r, none),
        i.Put c key r (handler1 ctx1 req1 (i.Get c key w).2).2,
        [cache.Call.GetByName fullMethod, cache.Call.Get c key, cache.Call.handler ctx1 req1,
          cache.Call.Put c key r]⟩ := by
    unfold cache.unaryServer
    simp only [hs1, hreg]
    rw [hmiss']
    simp only [hh]
  have second : ∀ w0 : ω, cache.unaryServer i ctx2 req2 fullMethod handler2
        (i.Put c key r w0) =
      ⟨cache.Result.ret (r, none), (i.Get c key (i.Put c key r w0)).2,
        [cache.Call.GetByName fullMethod, cache.Call.Get c key]⟩ := by
    intro w0
    unfold cache.unaryServer
    simp only [hs2, hreg, hputget]
  rw [first]
  simp only [second]
  simp [cache.Call.isHandler]

/-- C8 on the example collaborators: two calls with the request
"my-test-request" on an empty cache both return 42 and the handler count of
the world ends at one. -/
theorem C8_interceptor_memoizes_witness :
    (cache.unaryServer example_interceptor.env ()
        (example_interceptor.Request.testRequest "my-test-request") "my-test-method"
        example_interceptor.okHandler
        (cache.unaryServer example_interceptor.env ()
          (example_interceptor.Request.testRequest "my-test-request") "my-test-method"
          example_interceptor.okHandler ⟨[], 0⟩).world).result =
      cache.Result.ret (cache.Value.user 42, none) ∧
    (cache.unaryServer example_interceptor.env ()
        (example_interceptor.Request.testRequest "my-test-request") "my-test-method"
        example_interceptor.okHandler
        (cache.unaryServer example_interceptor.env ()
          (example_interceptor.Request.testRequest "my-test-request") "my-test-method"
          example_interceptor.okHandler ⟨[], 0⟩).world).world.handled = 1 :=
  ⟨(C8_interceptor_memoizes example_interceptor.env "my-test-method"
      example_interceptor.methodCache "my-test-request" () ()
      (example_interceptor.Request.testRequest "my-test-request")
      (example_interceptor.Request.testRequest "my-test-request")
      example_interceptor.okHandler example_interceptor.okHandler ⟨[], 0⟩ (cache.Value.user 42)
      rfl rfl (fun _ => rfl)
      (fun w' v => by simp [example_interceptor.env])
      (by decide) (by decide)).2.1,
   by decide⟩

/-! ## The sharded cache: `doInParallel` -/

namespace cache

/-- The caller's own step keeps a stuck configuration stuck. -/
theorem Par.Stuck.of_mainStep {C ω : Type} {s t : Par C ω} (hs : s.Stuck)
    (ht : s.mainStep = some t) : t.Stuck := by
  obtain ⟨hclosed, hcrashed, hwg, hall, hmain⟩ := hs
  unfold Par.mainStep at ht
  rcases hmain with ⟨rest, hrest, hne⟩ | ⟨hwait, hne⟩
  · rw [hrest] at ht
    cases rest with
    | nil =>
      simp only [Option.some.injEq] at ht
      subst ht
      refine ⟨hclosed, hcrashed, hwg, hall, Or.inr ⟨rfl, ?_⟩⟩
      rcases hne with h | h
      · exact absurd rfl h
      · exact h
    | cons node rest =>
      simp only [Option.some.injEq] at ht
      subst ht
      refine ⟨hclosed, hcrashed, ?_, ?_, Or.inl ⟨rest, rfl, Or.inr ?_⟩⟩
      · simp only [List.length_append, List.length_singleton, Nat.cast_add, Nat.cast_one]
        rw [hwg]
      · intro wk hwk
        rcases List.mem_append.mp hwk with h | h
        · exact hall wk h
        · rw [List.mem_singleton.mp h]
          rfl
      · simp
  · rw [hwait] at ht
    have hpos : s.wg ≠ 0 := by
      rw [hwg]
      have : s.workers.length ≠ 0 := fun h => hne (List.length_eq_zero.mp h)
      exact_mod_cast this
    simp [hpos] at ht

/-- A step of a started goroutine keeps a stuck configuration stuck. -/
theorem Par.Stuck.of_workerStep {C ω : Type} (f : C → ω → Int × ω) {s t : Par C ω} (i : Nat)
    (hs : s.Stuck) (ht : s.workerStep f i = some t) : t.Stuck := by
  obtain ⟨hclosed, hcrashed, hwg, hall, hmain⟩ := hs
  unfold Par.workerStep at ht
  cases hw : s.workers[i]? with
  | none => simp [hw] at ht
  | some wk =>
    have hmem : wk ∈ s.workers := List.getElem?_mem hw
    have hun := hall wk hmem
    rw [hw] at ht
    cases wk with
    | started node =>
      simp only [Option.some.injEq] at ht
      subst ht
      refine ⟨hclosed, hcrashed, ?_, ?_, ?_⟩
      · simp only [List.length_set]
        exact hwg
      · intro wk hwk
        rcases List.mem_or_eq_of_mem_set hwk with h | h
        · exact hall wk h
        · rw [h]
          rfl
      · have hne : ∀ l : List (Worker C), l ≠ [] →
            l.set i (Worker.sending (f node s.world).1) ≠ [] := by
          intro l hl h
          apply hl
          have := congrArg List.length h
          simp only [List.length_set, List.length_nil] at this
          exact List.length_eq_zero.mp this
        rcases hmain with ⟨rest, hrest, h⟩ | ⟨hwait, h⟩
        · refine Or.inl ⟨rest, hrest, ?_⟩
          rcases h with h | h
          · exact Or.inl h
          · exact Or.inr (hne _ h)
        · exact Or.inr ⟨hwait, hne _ h⟩
    | sending v =>
      simp only [hclosed] at ht
      rcases hmain with ⟨rest, hrest, _⟩ | ⟨hwait, _⟩
      · rw [hrest] at ht
        simp at ht
      · rw [hwait] at ht
        simp at ht
    | sent => simp [Worker.unsent] at hun
    | exited => simp [Worker.unsent] at hun

/-- Every step keeps a stuck configuration stuck. -/
theorem Par.Stuck.of_step {C ω : Type} (f : C → ω → Int × ω) {s t : Par C ω}
    (hs : s.Stuck) (ht : t ∈ s.step f) : t.Stuck := by
  unfold Par.step at ht
  rw [hs.2.1] at ht
  simp only [Bool.false_eq_true, if_false, List.mem_append, Option.mem_toList,
    Option.mem_def, List.mem_filterMap, List.mem_range] at ht
  rcases ht with h | ⟨i, _, h⟩
  · exact hs.of_mainStep h
  · exact hs.of_workerStep f i h

/-- Every configuration reachable from a stuck one is stuck. -/
theorem Par.Stuck.of_reaches {C ω : Type} (f : C → ω → Int × ω) {s t : Par C ω}
    (hs : s.Stuck) (ht : Par.Reaches f s t) : t.Stuck := by
  unfold Par.Reaches at ht
  induction ht with
  | refl => exact hs
  | tail _ hstep ih => exact ih.of_step f hstep

/-- With at least one node, `doInParallel` starts in a stuck configuration. -/
theorem shardedCache.doInParallel_stuck {C ω : Type} (sc : shardedCache C) (w : ω)
    (hne : sc.nodes ≠ []) : (sc.doInParallel w).Stuck :=
  ⟨rfl, rfl, rfl, fun _ h => absurd h (List.not_mem_nil _), Or.inl ⟨sc.nodes, rfl, Or.inl hne⟩⟩

/-- With at least one node, no run of `doInParallel` returns. -/
theorem shardedCache.doInParallel_never_returns {C ω : Type} (sc : shardedCache C)
    (f : C → ω → Int × ω) (w : ω) (hne : sc.nodes ≠ []) (v : Int) :
    ¬ sc.doInParallelReturns f w v := by
  rintro ⟨s, hreach, hret, _⟩
  have hstuck := (sc.doInParallel_stuck w hne).of_reaches f hreach
  rcases hstuck.2.2.2.2 with ⟨rest, hrest, _⟩ | ⟨hwait, _⟩
  · rw [hrest] at hret
    exact MainPC.noConfusion hret
  · rw [hwait] at hret
    exact MainPC.noConfusion hret

/-- The schedule `Par.run` only visits reachable configurations. -/
theorem Par.run_reaches {C ω : Type} (f : C → ω → Int × ω) :
    ∀ (fuel : Nat) (s : Par C ω), Par.Reaches f s (Par.run f fuel s) := by
  intro fuel
  induction fuel with
  | zero => intro s; exact Relation.ReflTransGen.refl
  | succ fuel ih =>
    intro s
    unfold Par.run
    cases hstep : Par.step f s with
    | nil => exact Relation.ReflTransGen.refl
    | cons t ts =>
      have hmem : t ∈ Par.step f s := by
        rw [hstep]
        exact List.mem_cons_self _ _
      exact Relation.ReflTransGen.head hmem (ih t)

end cache

/-- C9 (the code departs from it): on the sharded cache over the single node
`cache1`, which holds one entry, no call of `Len()` or `Cap()` ever returns,
in particular not with the node's `Len` 1 or `Cap` 10: the schedule `Par.run`
ends after three steps in a reachable configuration without successor, the
caller at `wg.Wait()` with counter 1 and the node's goroutine at its send on
the unbuffered channel. -/
theorem C9_sharded_Len_Cap_never_return :
    (∀ v : Int, ¬ example_sharded.single.Len example_sharded.nodes
      [(1, "a", cache.Value.user 1)] v) ∧
    (∀ v : Int, ¬ example_sharded.single.Cap example_sharded.nodes
      [(1, "a", cache.Value.user 1)] v) ∧
    (example_sharded.nodes.Len example_registry.cache1 [(1, "a", cache.Value.user 1)]).1 = 1 ∧
    (example_sharded.nodes.Cap example_registry.cache1 [(1, "a", cache.Value.user 1)]).1 = 10 ∧
    cache.Par.Reaches (fun nc => example_sharded.nodes.Len nc)
      (example_sharded.single.doInParallel [(1, "a", cache.Value.user 1)])
      (cache.Par.run (fun nc => example_sharded.nodes.Len nc) 3
        (example_sharded.single.doInParallel [(1, "a", cache.Value.user 1)])) ∧
    cache.Par.run (fun nc => example_sharded.nodes.Len nc) 3
        (example_sharded.single.doInParallel [(1, "a", cache.Value.user 1)]) =
      ⟨cache.MainPC.waiting, 1, false, 0, [cache.Worker.sending 1],
        [(1, "a", cache.Value.user 1)], false⟩ ∧
    cache.Par.step (fun nc => example_sharded.nodes.Len nc)
      (cache.Par.run (fun nc => example_sharded.nodes.Len nc) 3
        (example_sharded.single.doInParallel [(1, "a", cache.Value.user 1)])) = [] :=
  ⟨fun v => cache.shardedCache.doInParallel_never_returns example_sharded.single _ _
      (by decide) v,
   fun v => cache.shardedCache.doInParallel_never_returns example_sharded.single _ _
      (by decide) v,
   by decide, by decide, cache.Par.run_reaches _ _ _, by decide, by decide⟩

/-! ## The sharded cache: routing of per-key methods -/

namespace cache

/-- What the `for` loop of `NewShardedCache` leaves in `nodeByName`. -/
theorem nodeByName_mem {C : Type} (Name : C → String) (p : String × C) :
    ∀ (nodes : List C) (acc : List (String × C)),
      p ∈ nodes.foldl (fun m node => (Name node, node) :: m) acc ↔
        (p ∈ acc ∨ ∃ node ∈ nodes, p = (Name node, node)) := by
  intro nodes
  induction nodes with
  | nil => intro acc; simp
  | cons nd nodes ih =>
    intro acc
    rw [List.foldl_cons, ih]
    simp only [List.mem_cons, exists_eq_or_imp]
    tauto

/-- A map read that finds a value finds a pair of the association list. -/
theorem lookup_some_mem {C : Type} (name : String) (c : C) :
    ∀ L : List (String × C), L.lookup name = some c → (name, c) ∈ L := by
  intro L
  induction L with
  | nil => intro h; simp at h
  | cons p L ih =>
    intro h
    obtain ⟨k, v⟩ := p
    simp only [List.lookup_cons] at h
    cases hb : (name == k)
    · rw [hb] at h
      exact List.mem_cons_of_mem _ (ih h)
    · rw [hb] at h
      have hk : name = k := by simpa using hb
      have hv : v = c := Option.some.inj h
      rw [hk, hv]
      exact List.mem_cons_self _ _

/-- A map read of a key that occurs in the association list finds a value. -/
theorem lookup_isSome_of_mem {C : Type} (name : String) :
    ∀ L : List (String × C), name ∈ L.map Prod.fst → ∃ c, L.lookup name = some c := by
  intro L
  induction L with
  | nil => intro h; simp at h
  | cons p L ih =>
    intro h
    obtain ⟨k, v⟩ := p
    simp only [List.lookup_cons]
    cases hb : (name == k)
    · have hk : name ≠ k := by simpa using hb
      simp only [List.map_cons, List.mem_cons] at h
      rcases h with h | h
      · exact absurd h hk
      · exact ih h
    · exact ⟨v, rfl⟩

/-- The node `keyToNode` resolves a key to, on a sharded cache built by
`NewShardedCache` over a ring that resolves every key to one of the names it
was built from. -/
theorem keyToNode_resolves {C K : Type} (New : List String → HashRing) (Name : C → String)
    (nodes : List C) (sc : shardedCache C) (Sprintf : K → String)
    (hsc : NewShardedCache New Name nodes = (some sc, none))
    (htotal : ∀ k, ((New (nodes.map Name)).GetNode k).2 = true)
    (hmem : ∀ k, ((New (nodes.map Name)).GetNode k).1 ∈ nodes.map Name) (key : K) :
    ∃ node ∈ nodes, Name node = ((New (nodes.map Name)).GetNode (Sprintf key)).1 ∧
      sc.keyToNode Sprintf key = (some node, true) := by
  unfold NewShardedCache at hsc
  split at hsc
  · simp at hsc
  · simp only [Prod.mk.injEq, Option.some.injEq, and_true] at hsc
    subst hsc
    have hin := hmem (Sprintf key)
    have hkeys : ((New (nodes.map Name)).GetNode (Sprintf key)).1 ∈
        (nodes.foldl (fun m node => (Name node, node) :: m) []).map Prod.fst := by
      obtain ⟨nd, hnd, hname⟩ := List.mem_map.mp hin
      refine List.mem_map.mpr ⟨(Name nd, nd), ?_, hname⟩
      exact (nodeByName_mem Name _ nodes []).mpr (Or.inr ⟨nd, hnd, rfl⟩)
    obtain ⟨c, hc⟩ := lookup_isSome_of_mem _ _ hkeys
    have hpair := (nodeByName_mem Name _ nodes []).mp (lookup_some_mem _ _ _ hc)
    rcases hpair with h | ⟨nd, hnd, heq⟩
    · simp at h
    · have h1 : ((New (nodes.map Name)).GetNode (Sprintf key)).1 = Name nd :=
        congrArg Prod.fst heq
      have h2 : c = nd := congrArg Prod.snd heq
      subst h2
      refine ⟨c, hnd, h1.symm, ?_⟩
      unfold shardedCache.keyToNode
      have hres : (New (nodes.map Name)).GetNode (Sprintf key) =
          (((New (nodes.map Name)).GetNode (Sprintf key)).1, true) := by
        rw [← htotal (Sprintf key)]
      simp only
      rw [hres]
      simp only [hc]

end cache

/-- C10: on a sharded cache built by `NewShardedCache` (over a ring that
resolves every key to one of the names it was built from), each key has one
node, the node registered last under the name the ring gives for the key's
`"%+v"` string; every key with the same string form has the same node; and
`Get`, `Peek`, `Contains`, `Put` and `Remove` on the key each make exactly one
call, the corresponding method of that node with the same arguments, and pass
its result and effect through.  So a `Get(key)` after `Put(key, v)` is answered
by the node that received the `Put`. -/
theorem C10_sharded_routing {C ω K V : Type} (New : List String → cache.HashRing)
    (Name : C → String) (nodes : List C) (sc : cache.shardedCache C)
    (n : cache.Nodes C ω K V)
    (hsc : cache.NewShardedCache New Name nodes = (some sc, none))
    (htotal : ∀ k, ((New (nodes.map Name)).GetNode k).2 = true)
    (hmem : ∀ k, ((New (nodes.map Name)).GetNode k).1 ∈ nodes.map Name) (key : K) :
    ∃ node ∈ nodes,
      Name node = ((New (nodes.map Name)).GetNode (n.Sprintf key)).1 ∧
      (∀ key' : K, n.Sprintf key' = n.Sprintf key →
        sc.keyToNode n.Sprintf key' = (some node, true)) ∧
      (∀ w : ω, (sc.Get n key w).calls = [cache.NodeCall.Get node key] ∧
        (sc.Get n key w).result = cache.Result.ret (n.Get node key w).1 ∧
        (sc.Get n key w).world = (n.Get node key w).2) ∧
      (∀ w : ω, (sc.Peek n key w).calls = [cache.NodeCall.Peek node key] ∧
        (sc.Peek n key w).result = cache.Result.ret (n.Peek node key w).1 ∧
        (sc.Peek n key w).world = (n.Peek node key w).2) ∧
      (∀ w : ω, (sc.Contains n key w).calls = [cache.NodeCall.Contains node key] ∧
        (sc.Contains n key w).result = cache.Result.ret (n.Contains node key w).1 ∧
        (sc.Contains n key w).world = (n.Contains node key w).2) ∧
      (∀ (w : ω) (v : cache.Value V),
        (sc.Put n key v w).calls = [cache.NodeCall.Put node key v] ∧
        (sc.Put n key v w).result = cache.Result.ret () ∧
        (sc.Put n key v w).world = n.Put node key v w) ∧
      (∀ w : ω, (sc.Remove n key w).calls = [cache.NodeCall.Remove node key] ∧
        (sc.Remove n key w).result = cache.Result.ret () ∧
        (sc.Remove n key w).world = n.Remove node key w) ∧
      (∀ (w : ω) (v : cache.Value V),
        (sc.Get n key (sc.Put n key v w).world).calls = [cache.NodeCall.Get node key] ∧
        (sc.Get n key (sc.Put n key v w).world).result =
          cache.Result.ret (n.Get node key (n.Put node key v w)).1) := by
  obtain ⟨node, hnode, hname, hroute⟩ :=
    cache.keyToNode_resolves New Name nodes sc n.Sprintf hsc htotal hmem key
  have hsame : ∀ key' : K, n.Sprintf key' = n.Sprintf key →
      sc.keyToNode n.Sprintf key' = (some node, true) := by
    intro key' heq
    have : sc.keyToNode n.Sprintf key' = sc.keyToNode n.Sprintf key := by
      unfold cache.shardedCache.keyToNode
      rw [heq]
    rw [this, hroute]
  have hget : ∀ w : ω, sc.Get n key w =
      ⟨cache.Result.ret (n.Get node key w).1, (n.Get node key w).2,
        [cache.NodeCall.Get node key]⟩ := by
    intro w
    unfold cache.shardedCache.Get
    rw [hroute]
  have hput : ∀ (w : ω) (v : cache.Value V), sc.Put n key v w =
      ⟨cache.Result.ret (), n.Put node key v w, [cache.NodeCall.Put node key v]⟩ := by
    intro w v
    unfold cache.shardedCache.Put
    rw [hroute]
  refine ⟨node, hnode, hname, hsame, ?_, ?_, ?_, ?_, ?_, ?_⟩
  · intro w
    rw [hget w]
    exact ⟨rfl, rfl, rfl⟩
  · intro w
    unfold cache.shardedCache.Peek
    rw [hroute]
    exact ⟨rfl, rfl, rfl⟩
  · intro w
    unfold cache.shardedCache.Contains
    rw [hroute]
    exact ⟨rfl, rfl, rfl⟩
  · intro w v
    rw [hput w v]
    exact ⟨rfl, rfl, rfl⟩
  · intro w
    unfold cache.shardedCache.Remove
    rw [hroute]
    exact ⟨rfl, rfl, rfl⟩
  · intro w v
    rw [hput w v, hget]
    exact ⟨rfl, rfl⟩

/-- C10 on the sharded cache over "cache-1" and "cache-2" with the example
ring: the key "ab" has a node named "cache-1", and both `Put` and `Get` on
"ab" call that node alone. -/
theorem C10_sharded_routing_witness :
    ∃ node ∈ [example_registry.cache1, example_registry.cache2],
      node.name = "cache-1" ∧
      (∀ (w : example_sharded.World) (v : cache.Value Nat),
        (example_sharded.pair.Put example_sharded.nodes "ab" v w).calls =
          [cache.NodeCall.Put node "ab" v]) ∧
      (∀ w : example_sharded.World,
        (example_sharded.pair.Get example_sharded.nodes "ab" w).calls =
          [cache.NodeCall.Get node "ab"]) := by
  have htotal : ∀ k, ((example_sharded.New
      ([example_registry.cache1, example_registry.cache2].map
        example_registry.Node.name)).GetNode k).2 = true := by
    intro k
    rcases Nat.mod_two_eq_zero_or_one k.length with h | h <;>
      simp [example_sharded.New, h]
  have hmem : ∀ k, ((example_sharded.New
      ([example_registry.cache1, example_registry.cache2].map
        example_registry.Node.name)).GetNode k).1 ∈
      [example_registry.cache1, example_registry.cache2].map example_registry.Node.name := by
    intro k
    rcases Nat.mod_two_eq_zero_or_one k.length with h | h <;>
      simp [example_sharded.New, h, example_registry.cache1, example_registry.cache2]
  obtain ⟨node, hnode, hname, _, hget, _, _, hput, _, _⟩ :=
    C10_sharded_routing example_sharded.New example_registry.Node.name
      [example_registry.cache1, example_registry.cache2] example_sharded.pair
      example_sharded.nodes rfl htotal hmem "ab"
  exact ⟨node, hnode, hname.trans (by decide), fun w v => (hput w v).1, fun w => (hget w).1⟩

/-! ## Constructors -/

/-- C11: `NewShardedCache` returns `(nil, ErrEmptyNodes)` if and only if the
node list is empty; for every non-empty list of (non-nil) nodes it returns a
sharded cache over exactly these nodes, with the ring built from their names,
and a nil error. -/
theorem C11_NewShardedCache_empty_iff {C : Type} (New : List String → cache.HashRing)
    (Name : C → String) (nodes : List C) :
    (cache.NewShardedCache New Name nodes = (none, some cache.ShardedError.ErrEmptyNodes) ↔
      nodes = []) ∧
    (nodes ≠ [] →
      ∃ sc, cache.NewShardedCache New Name nodes = (some sc, none) ∧ sc.nodes = nodes ∧
        sc.ring = New (nodes.map Name)) := by
  unfold cache.NewShardedCache
  cases nodes with
  | nil => simp
  | cons node rest => simp

/-- C11 on the example nodes: the empty list is refused with `ErrEmptyNodes`,
the list of "cache-1" and "cache-2" yields the sharded cache `pair`. -/
theorem C11_NewShardedCache_empty_iff_witness :
    cache.NewShardedCache example_sharded.New example_registry.Node.name [] =
      (none, some cache.ShardedError.ErrEmptyNodes) ∧
    ∃ sc, cache.NewShardedCache example_sharded.New example_registry.Node.name
        [example_registry.cache1, example_registry.cache2] = (some sc, none) ∧
      sc.nodes = [example_registry.cache1, example_registry.cache2] :=
  ⟨(C11_NewShardedCache_empty_iff example_sharded.New example_registry.Node.name []).1.mpr rfl,
   by
    obtain ⟨sc, h1, h2, _⟩ :=
      (C11_NewShardedCache_empty_iff example_sharded.New example_registry.Node.name
        [example_registry.cache1, example_registry.cache2]).2 (by decide)
    exact ⟨sc, h1, h2⟩⟩

/-- C12: for `lru.NewCacheWithEvictCallback`, `lru.NewCache` and
`arc.NewCache`, with engine constructors that accept every positive size: if
`cap <= 0` the constructor returns no cache and an error wrapping
`ErrWrongCapacity`; otherwise if `ttl < 0` it returns no cache and an error
wrapping `ErrWrongTTL`; otherwise it returns a cache with `Cap() == cap` and
`Name() == name` and a nil error. -/
theorem C12_constructors_validate {σ K V F E : Type}
    (NewWithEvict : Int → Option F → Except E (cache.Engine σ K V × σ))
    (NewARC : Int → Except E (cache.Engine σ K V × σ))
    (name : String) (cap : Int) (ttl : cache.Duration) (onEvict : Option F)
    (hlru : ∀ (size : Int) (cb : Option F), 0 < size → ∃ e, NewWithEvict size cb = Except.ok e)
    (harc : ∀ size : Int, 0 < size → ∃ e, NewARC size = Except.ok e) :
    (cap ≤ 0 →
      lru.NewCacheWithEvictCallback NewWithEvict name cap ttl onEvict =
        (none, some (cache.NewError.wrapped name cache.ConfigError.ErrWrongCapacity)) ∧
      lru.NewCache NewWithEvict name cap ttl =
        (none, some (cache.NewError.wrapped name cache.ConfigError.ErrWrongCapacity)) ∧
      arc.NewCache NewARC name cap ttl =
        (none, some (cache.NewError.wrapped name cache.ConfigError.ErrWrongCapacity)) ∧
      (cache.NewError.wrapped name cache.ConfigError.ErrWrongCapacity : cache.NewError E).Is
        cache.ConfigError.ErrWrongCapacity = true) ∧
    (0 < cap → ttl < 0 →
      lru.NewCacheWithEvictCallback NewWithEvict name cap ttl onEvict =
        (none, some (cache.NewError.wrapped name cache.ConfigError.ErrWrongTTL)) ∧
      lru.NewCache NewWithEvict name cap ttl =
        (none, some (cache.NewError.wrapped name cache.ConfigError.ErrWrongTTL)) ∧
      arc.NewCache NewARC name cap ttl =
        (none, some (cache.NewError.wrapped name cache.ConfigError.ErrWrongTTL)) ∧
      (cache.NewError.wrapped name cache.ConfigError.ErrWrongTTL : cache.NewError E).Is
        cache.ConfigError.ErrWrongTTL = true) ∧
    (0 < cap → 0 ≤ ttl →
      (∃ c, lru.NewCacheWithEvictCallback NewWithEvict name cap ttl onEvict = (some c, none) ∧
        c.Cap = cap ∧ c.Name = name) ∧
      (∃ c, lru.NewCache NewWithEvict name cap ttl = (some c, none) ∧
        c.Cap = cap ∧ c.Name = name) ∧
      (∃ c, arc.NewCache NewARC name cap ttl = (some c, none) ∧
        c.Cap = cap ∧ c.Name = name)) := by
  refine ⟨fun hcap => ?_, fun hcap httl => ?_, fun hcap httl => ?_⟩
  · simp [lru.NewCacheWithEvictCallback, lru.NewCache, arc.NewCache, hcap, cache.NewError.Is]
  · have h1 : ¬ cap ≤ 0 := by omega
    simp [lru.NewCacheWithEvictCallback, lru.NewCache, arc.NewCache, h1, httl,
      cache.NewError.Is]
  · have h1 : ¬ cap ≤ 0 := by omega
    have h2 : ¬ ttl < 0 := not_lt.mpr httl
    obtain ⟨e1, he1⟩ := hlru cap onEvict hcap
    obtain ⟨e2, he2⟩ := hlru cap none hcap
    obtain ⟨e3, he3⟩ := harc cap hcap
    refine ⟨?_, ?_, ?_⟩
    · simp [lru.NewCacheWithEvictCallback, h1, h2, he1, lru.Cache.Cap, lru.Cache.Name]
    · simp [lru.NewCache, lru.NewCacheWithEvictCallback, h1, h2, he2, lru.Cache.Cap,
        lru.Cache.Name]
    · simp [arc.NewCache, h1, h2, he3, arc.Cache.Cap, arc.Cache.Name]

/-- The example engine constructor accepts every positive size. -/
theorem example_engine.NewARC_accepts (size : Int) (h : 0 < size) :
    ∃ e, example_engine.NewARC size = Except.ok e := by
  refine ⟨(example_engine.engine, ⟨size.toNat, []⟩), ?_⟩
  unfold example_engine.NewARC
  rw [if_neg (by omega)]

/-- C12 on the example engine constructors: capacity 0 is refused with
`ErrWrongCapacity`, TTL -1 with `ErrWrongTTL`, and capacity 1 with TTL one
second yields a cache named "test" of capacity 1. -/
theorem C12_constructors_validate_witness :
    lru.NewCache example_engine.NewWithEvict "test" 0 1000000000 =
      (none, some (cache.NewError.wrapped "test" cache.ConfigError.ErrWrongCapacity)) ∧
    arc.NewCache example_engine.NewARC "test" 1 (-1) =
      (none, some (cache.NewError.wrapped "test" cache.ConfigError.ErrWrongTTL)) ∧
    (∃ c, lru.NewCache example_engine.NewWithEvict "test" 1 1000000000 = (some c, none) ∧
      c.Cap = 1 ∧ c.Name = "test") :=
  ⟨((C12_constructors_validate example_engine.NewWithEvict example_engine.NewARC "test" 0
      1000000000 none
      (fun size _ h => example_engine.NewARC_accepts size h) example_engine.NewARC_accepts).1 (by decide)).2.1,
   ((C12_constructors_validate example_engine.NewWithEvict example_engine.NewARC "test" 1
      (-1) none
      (fun size _ h => example_engine.NewARC_accepts size h) example_engine.NewARC_accepts).2.1 (by decide)
      (by decide)).2.2.1,
   ((C12_constructors_validate example_engine.NewWithEvict example_engine.NewARC "test" 1
      1000000000 none
      (fun size _ h => example_engine.NewARC_accepts size h) example_engine.NewARC_accepts).2.2 (by decide)
      (by decide)).2.1⟩

/-- C13 (the code departs from it): `ristretto.New` hands the library
constructor a configuration that does not mention the TTL and checks nothing
itself, so whether it returns an error never depends on `ttl`; on the example
library constructor, `New("test", 1, -1)` returns a nil error and a cache
whose default TTL is -1, just as `New("test", 1, 0)` of the wrapper test
returns a nil error. -/
theorem C13_ristretto_New_accepts_negative_ttl :
    (∀ (σ K V E : Type)
        (NewCache : ristretto.RistrettoConfig →
          Except E (ristretto.RistrettoCache σ K V × σ))
        (name : String) (capacity : Int) (ttl ttl' : cache.Duration),
      (ristretto.New NewCache name capacity ttl).2 =
        (ristretto.New NewCache name capacity ttl').2) ∧
    (ristretto.New example_ristretto.NewCache "test" 1 0).2 = none ∧
    (ristretto.New example_ristretto.NewCache "test" 1 (-1)).2 = none ∧
    (ristretto.New example_ristretto.NewCache "test" 1 (-1)).1.map (fun c => c.ttl) =
      some (-1) := by
  refine ⟨?_, by decide, by decide, by decide⟩
  intro σ K V E NewCache name capacity ttl ttl'
  unfold ristretto.New ristretto.NewWithConfig ristretto.BuildConfig
  cases NewCache _ <;> rfl

/-! ## The registry helpers -/

/-- C14, as stated, fails: `Register(cache1, nil)` on a fresh registry returns
an error, yet "cache-1", not found before the call, resolves to `cache1`
after it. -/
theorem C14_register_atomic_counterexample :
    (cache.cacheRegistry.Register example_registry.Node.name cache.NewRegistry
        [some example_registry.cache1, none]).2 = some cache.RegisterError.nilCache ∧
    (cache.NewRegistry : cache.cacheRegistry example_registry.Node).GetByName "cache-1" =
      (none, false) ∧
    (cache.cacheRegistry.Register example_registry.Node.name cache.NewRegistry
        [some example_registry.cache1, none]).1.GetByName "cache-1" =
      (some example_registry.cache1, true) := by
  decide

/-- C14, amended: if `Register(batch)` returns an error, the batch splits into
the entries before the first failing entry, that entry (nil, or named like a
cache registered by then) and the rest; the registry is left exactly as a
successful `Register` of the entries before the failing one leaves it, and
every name bound before the call is still bound to the same cache. -/
theorem C14_register_applies_prefix {C : Type} (Name : C → String) :
    ∀ (cc : List (Option C)) (r : cache.cacheRegistry C),
      (cache.cacheRegistry.Register Name r cc).2 ≠ none →
      (∃ (pre : List C) (bad : Option C) (rest : List (Option C)),
        cc = pre.map some ++ bad :: rest ∧
        (cache.cacheRegistry.Register Name r (pre.map some)).2 = none ∧
        (cache.cacheRegistry.Register Name r cc).1 =
          (cache.cacheRegistry.Register Name r (pre.map some)).1 ∧
        (bad = none ∨ ∃ s, bad = some s ∧
          ((cache.cacheRegistry.Register Name r (pre.map some)).1.GetByName (Name s)).2 =
            true)) ∧
      (∀ (n : String) (c : C), r.GetByName n = (some c, true) →
        (cache.cacheRegistry.Register Name r cc).1.GetByName n = (some c, true)) := by
  intro cc r herr
  constructor
  · induction cc generalizing r with
    | nil => exact absurd rfl herr
    | cons x cc ih =>
      cases x with
      | none => exact ⟨[], none, cc, rfl, rfl, rfl, Or.inl rfl⟩
      | some s =>
        by_cases hs : (r.caches.lookup (Name s)).isSome = true
        · refine ⟨[], some s, cc, rfl, rfl, ?_, Or.inr ⟨s, rfl, ?_⟩⟩
          · simp [cache.cacheRegistry.Register, hs]
          · simpa [cache.cacheRegistry.Register, cache.cacheRegistry.GetByName] using hs
        · have hstep : ∀ l : List (Option C),
              cache.cacheRegistry.Register Name r (some s :: l) =
                cache.cacheRegistry.Register Name ⟨(Name s, s) :: r.caches⟩ l := by
            intro l
            simp [cache.cacheRegistry.Register, hs]
          rw [hstep] at herr
          obtain ⟨pre, bad, rest, hcc, hok, heq, hbad⟩ := ih ⟨(Name s, s) :: r.caches⟩ herr
          refine ⟨s :: pre, bad, rest, ?_, ?_, ?_, ?_⟩
          · rw [hcc]
            rfl
          · rw [List.map_cons, hstep]
            exact hok
          · rw [List.map_cons, hstep, hstep]
            exact heq
          · rw [List.map_cons, hstep]
            exact hbad
  · intro n c hn
    have hl := (cache.GetByName_eq_some_iff r n c).mp hn
    exact (cache.GetByName_eq_some_iff _ n c).mpr
      (cache.Register_lookup_preserved Name n c cc r hl)

/-- C14, amended, on the batch `cache2, cache1, impostor`: the call fails at
`impostor`, and the registry is as after registering `cache2, cache1`. -/
theorem C14_register_applies_prefix_witness :
    ∃ (pre : List example_registry.Node) (bad : Option example_registry.Node)
      (rest : List (Option example_registry.Node)),
      [some example_registry.cache2, some example_registry.cache1,
        some example_registry.impostor] = pre.map some ++ bad :: rest ∧
      (cache.cacheRegistry.Register example_registry.Node.name cache.NewRegistry
        [some example_registry.cache2, some example_registry.cache1,
          some example_registry.impostor]).1 =
      (cache.cacheRegistry.Register example_registry.Node.name cache.NewRegistry
        (pre.map some)).1 := by
  obtain ⟨⟨pre, bad, rest, h1, _, h3, _⟩, _⟩ :=
    C14_register_applies_prefix example_registry.Node.name
      [some example_registry.cache2, some example_registry.cache1,
        some example_registry.impostor] cache.NewRegistry (by decide)
  exact ⟨pre, bad, rest, h1, h3⟩

/-- C15 (the code departs from it): on every registry, `MaybeRegister(nil, nil)`
fails to register the nil cache and then panics while evaluating
`cache.Name()` for the log message: it does not return, and its error logger
is called zero times.  On the example registry the registration of the nil
cache does fail with the nil-cache error. -/
theorem C15_MaybeRegister_nil_cache_panics :
    (∀ (C E : Type) (Name : C → String) (r : cache.cacheRegistry C),
      (cache.cacheRegistry.MaybeRegister Name r none (none : Option E)).result =
        cache.Result.panic ∧
      (cache.cacheRegistry.MaybeRegister Name r none (none : Option E)).logs = []) ∧
    (cache.cacheRegistry.Register example_registry.Node.name example_interceptor.registry
      [none]).2 = some cache.RegisterError.nilCache ∧
    (cache.cacheRegistry.MaybeRegister example_registry.Node.name
      example_interceptor.registry none (none : Option String)).result = cache.Result.panic ∧
    (cache.cacheRegistry.MaybeRegister example_registry.Node.name
      example_interceptor.registry none (none : Option String)).logs.length = 0 := by
  refine ⟨fun C E Name r => ⟨rfl, rfl⟩, rfl, rfl, rfl⟩

namespace cache

/-- The method `Register` on a one-element batch holding a non-nil cache. -/
theorem Register_single {C : Type} (Name : C → String) (r : cacheRegistry C) (s : C) :
    cacheRegistry.Register Name r [some s] =
      if (r.caches.lookup (Name s)).isSome then (r, some (RegisterError.sameName (Name s)))
      else (⟨(Name s, s) :: r.caches⟩, none) := by
  simp only [cacheRegistry.Register]

/-- The outcome of `MaybeRegister` on a non-nil cache. -/
theorem MaybeRegister_some {C E : Type} (Name : C → String) (r : cacheRegistry C) (s : C)
    (err : Option E) :
    cacheRegistry.MaybeRegister Name r (some s) err =
      match err with
      | some e => ⟨Result.ret (), r, [LogCall.createFailed e]⟩
      | none =>
        if (r.caches.lookup (Name s)).isSome then
          ⟨Result.ret (), r, [LogCall.registerFailed (Name s) (RegisterError.sameName (Name s))]⟩
        else ⟨Result.ret (), ⟨(Name s, s) :: r.caches⟩, []⟩ := by
  unfold cacheRegistry.MaybeRegister
  cases err with
  | some e => rfl
  | none =>
    by_cases hs : (r.caches.lookup (Name s)).isSome = true
    · simp [Register_single, hs]
    · simp [Register_single, hs]

/-- The outcome of `MustRegister` on a non-nil cache. -/
theorem MustRegister_some {C E : Type} (Name : C → String) (r : cacheRegistry C) (s : C)
    (err : Option E) :
    cacheRegistry.MustRegister Name r (some s) err =
      match err with
      | some e => ⟨Result.ret (), r, [LogCall.createFailed e]⟩
      | none =>
        if (r.caches.lookup (Name s)).isSome then
          ⟨Result.ret (), r, [LogCall.registerFailed (Name s) (RegisterError.sameName (Name s))]⟩
        else ⟨Result.ret (), ⟨(Name s, s) :: r.caches⟩, []⟩ := by
  unfold cacheRegistry.MustRegister
  cases err with
  | some e => rfl
  | none =>
    by_cases hs : (r.caches.lookup (Name s)).isSome = true
    · simp [Register_single, hs]
    · simp [Register_single, hs]

end cache

/-- C16: for every non-nil cache and every `err`, `MaybeRegister` and
`MustRegister` return and call their logger exactly once if `err` is non-nil
or the cache's name is already registered, and zero times otherwise; when
`err` is non-nil the registry is unchanged and the outcome is the same for
every cache argument, the nil one included (no method of the cache is used);
and when no log call is made `GetByName(cache.Name())` afterwards returns
`(cache, true)`. -/
theorem C16_register_helpers_log {C E : Type} (Name : C → String)
    (r : cache.cacheRegistry C) (s : C) (err : Option E) :
    ((cache.cacheRegistry.MaybeRegister Name r (some s) err).result = cache.Result.ret () ∧
      (cache.cacheRegistry.MaybeRegister Name r (some s) err).logs.length =
        (if err.isSome = true ∨ (r.GetByName (Name s)).2 = true then 1 else 0) ∧
      (err.isSome = true →
        (cache.cacheRegistry.MaybeRegister Name r (some s) err).registry = r ∧
        ∀ other : Option C,
          cache.cacheRegistry.MaybeRegister Name r other err =
            cache.cacheRegistry.MaybeRegister Name r (some s) err) ∧
      ((cache.cacheRegistry.MaybeRegister Name r (some s) err).logs = [] →
        (cache.cacheRegistry.MaybeRegister Name r (some s) err).registry.GetByName (Name s) =
          (some s, true))) ∧
    ((cache.cacheRegistry.MustRegister Name r (some s) err).result = cache.Result.ret () ∧
      (cache.cacheRegistry.MustRegister Name r (some s) err).logs.length =
        (if err.isSome = true ∨ (r.GetByName (Name s)).2 = true then 1 else 0) ∧
      (err.isSome = true →
        (cache.cacheRegistry.MustRegister Name r (some s) err).registry = r ∧
        ∀ other : Option C,
          cache.cacheRegistry.MustRegister Name r other err =
            cache.cacheRegistry.MustRegister Name r (some s) err) ∧
      ((cache.cacheRegistry.MustRegister Name r (some s) err).logs = [] →
        (cache.cacheRegistry.MustRegister Name r (some s) err).registry.GetByName (Name s) =
          (some s, true))) := by
  have hget : (r.GetByName (Name s)).2 = (r.caches.lookup (Name s)).isSome := rfl
  constructor
  · rw [cache.MaybeRegister_some, hget]
    cases err with
    | some e =>
      refine ⟨rfl, by simp, fun _ => ⟨rfl, fun other => ?_⟩, fun h => by simp at h⟩
      rfl
    | none =>
      by_cases hs : (r.caches.lookup (Name s)).isSome = true
      · simp [hs]
      · simp [hs, cache.cacheRegistry.GetByName]
  · rw [cache.MustRegister_some, hget]
    cases err with
    | some e =>
      refine ⟨rfl, by simp, fun _ => ⟨rfl, fun other => ?_⟩, fun h => by simp at h⟩
      rfl
    | none =>
      by_cases hs : (r.caches.lookup (Name s)).isSome = true
      · simp [hs]
      · simp [hs, cache.cacheRegistry.GetByName]

/-- C16 at the registry tests: `MustRegister(cache1, nil)` twice logs once in
all, and `MaybeRegister(cache1, err)` logs once and registers nothing. -/
theorem C16_register_helpers_log_witness :
    (cache.cacheRegistry.MustRegister example_registry.Node.name cache.NewRegistry
        (some example_registry.cache1) (none : Option String)).logs.length = 0 ∧
    (cache.cacheRegistry.MustRegister example_registry.Node.name
        (cache.cacheRegistry.MustRegister example_registry.Node.name cache.NewRegistry
          (some example_registry.cache1) (none : Option String)).registry
        (some example_registry.cache1) (none : Option String)).logs.length = 1 ∧
    (cache.cacheRegistry.MaybeRegister example_registry.Node.name cache.NewRegistry
        (some example_registry.cache1) (some "assert.AnError")).logs.length = 1 ∧
    (cache.cacheRegistry.MaybeRegister example_registry.Node.name cache.NewRegistry
        (some example_registry.cache1) (some "assert.AnError")).registry = cache.NewRegistry :=
  ⟨(C16_register_helpers_log example_registry.Node.name cache.NewRegistry
      example_registry.cache1 (none : Option String)).2.2.1,
   (C16_register_helpers_log example_registry.Node.name
      (cache.cacheRegistry.MustRegister example_registry.Node.name cache.NewRegistry
        (some example_registry.cache1) (none : Option String)).registry
      example_registry.cache1 (none : Option String)).2.2.1,
   (C16_register_helpers_log example_registry.Node.name cache.NewRegistry
      example_registry.cache1 (some "assert.AnError")).1.2.1,
   ((C16_register_helpers_log example_registry.Node.name cache.NewRegistry
      example_registry.cache1 (some "assert.AnError")).1.2.2.1 rfl).1⟩

/-! ## Reads and their metrics -/

/-- The lru `Peek` as a function of what the engine's `Peek` returns. -/
theorem lru.Peek_eq_lru {σ K V : Type} (c : lru.Cache σ K V) (key : K) (now : cache.Time) :
    c.Peek key now =
      match c.engine.Peek key c.st with
      | (cache.Value.entry value expires, true) =>
        if expires.IsZero || now.Before expires then cache.Result.ret (value, true)
        else cache.Result.ret (cache.Value.nil, false)
      | (_, true) => cache.Result.panic
      | (_, false) => cache.Result.ret (cache.Value.nil, false) := by
  unfold lru.Cache.Peek
  generalize c.engine.Peek key c.st = r
  rcases r with ⟨v, b⟩
  cases b <;> cases v <;> rfl

/-- The lru `Get`, result and metrics, as a function of what the engine's
`Get` returns. -/
theorem lru.Get_eq_lru {σ K V : Type} (c : lru.Cache σ K V) (key : K) (now : cache.Time) :
    ((c.Get key now).1, (c.Get key now).2.metrics) =
      match (c.engine.Get key c.st).1 with
      | (cache.Value.entry value expires, true) =>
        if expires.IsZero || now.Before expires then
          (cache.Result.ret (value, true), cache.getDeferred c.metrics true false)
        else (cache.Result.ret (cache.Value.nil, false), cache.getDeferred c.metrics false true)
      | (_, true) => (cache.Result.panic, cache.getDeferred c.metrics true false)
      | (_, false) =>
        (cache.Result.ret (cache.Value.nil, false), cache.getDeferred c.metrics false false) := by
  unfold lru.Cache.Get
  dsimp only
  generalize c.engine.Get key c.st = r
  rcases r with ⟨⟨v, b⟩, st⟩
  cases b
  · cases v <;> rfl
  · cases v with
    | nil => rfl
    | user _ => rfl
    | entry value expires =>
      dsimp only
      split <;> rfl

/-- The arc `Peek` as a function of what the engine's `Peek` returns. -/
theorem arc.Peek_eq_arc {σ K V : Type} (c : arc.Cache σ K V) (key : K) (now : cache.Time) :
    c.Peek key now =
      match c.engine.Peek key c.st with
      | (cache.Value.entry value expires, true) =>
        if expires.IsZero || now.Before expires then cache.Result.ret (value, true)
        else cache.Result.ret (cache.Value.nil, false)
      | (_, true) => cache.Result.panic
      | (_, false) => cache.Result.ret (cache.Value.nil, false) := by
  unfold arc.Cache.Peek
  generalize c.engine.Peek key c.st = r
  rcases r with ⟨v, b⟩
  cases b <;> cases v <;> rfl

/-- The arc `Get`, result and metrics, as a function of what the engine's
`Get` returns. -/
theorem arc.Get_eq_arc {σ K V : Type} (c : arc.Cache σ K V) (key : K) (now : cache.Time) :
    ((c.Get key now).1, (c.Get key now).2.metrics) =
      match (c.engine.Get key c.st).1 with
      | (cache.Value.entry value expires, true) =>
        if expires.IsZero || now.Before expires then
          (cache.Result.ret (value, true), cache.getDeferred c.metrics true false)
        else (cache.Result.ret (cache.Value.nil, false), cache.getDeferred c.metrics false true)
      | (_, true) => (cache.Result.panic, cache.getDeferred c.metrics true false)
      | (_, false) =>
        (cache.Result.ret (cache.Value.nil, false), cache.getDeferred c.metrics false false) := by
  unfold arc.Cache.Get
  dsimp only
  generalize c.engine.Get key c.st = r
  rcases r with ⟨⟨v, b⟩, st⟩
  cases b
  · cases v <;> rfl
  · cases v with
    | nil => rfl
    | user _ => rfl
    | entry value expires =>
      dsimp only
      split <;> rfl

/-- C17: in the lru and arc wrappers, in every state and at every instant,
on an engine whose `Get` and `Peek` return the same pair for the key, `Peek(key)`
returns what `Get(key)` returns at that instant; and `Peek` is a function of
the answer of the engine's `Peek` alone: two caches whose engines answer
`Peek` alike give the same `Peek`, whatever their engines' `Get`, their metrics
and the rest of their state (`Peek` itself leaves no new state behind). -/
theorem C17_Peek_agrees_with_Get {σ K V : Type} (key : K) (now : cache.Time) :
    ((∀ c : lru.Cache σ K V, (c.engine.Get key c.st).1 = c.engine.Peek key c.st →
        c.Peek key now = (c.Get key now).1) ∧
      (∀ c d : lru.Cache σ K V, c.engine.Peek key c.st = d.engine.Peek key d.st →
        c.Peek key now = d.Peek key now)) ∧
    ((∀ c : arc.Cache σ K V, (c.engine.Get key c.st).1 = c.engine.Peek key c.st →
        c.Peek key now = (c.Get key now).1) ∧
      (∀ c d : arc.Cache σ K V, c.engine.Peek key c.st = d.engine.Peek key d.st →
        c.Peek key now = d.Peek key now)) := by
  refine ⟨⟨fun c h => ?_, fun c d h => ?_⟩, ⟨fun c h => ?_, fun c d h => ?_⟩⟩
  · have hg := congrArg Prod.fst (lru.Get_eq_lru c key now)
    simp only at hg
    rw [hg, lru.Peek_eq_lru, h]
    generalize c.engine.Peek key c.st = r
    rcases r with ⟨v, b⟩
    cases b
    · cases v <;> rfl
    · cases v with
      | nil => rfl
      | user _ => rfl
      | entry value expires =>
        dsimp only
        split <;> rfl
  · rw [lru.Peek_eq_lru, lru.Peek_eq_lru, h]
  · have hg := congrArg Prod.fst (arc.Get_eq_arc c key now)
    simp only at hg
    rw [hg, arc.Peek_eq_arc, h]
    generalize c.engine.Peek key c.st = r
    rcases r with ⟨v, b⟩
    cases b
    · cases v <;> rfl
    · cases v with
      | nil => rfl
      | user _ => rfl
      | entry value expires =>
        dsimp only
        split <;> rfl
  · rw [arc.Peek_eq_arc, arc.Peek_eq_arc, h]

/-- C17 on the example engine: after `PutWithTTL(1, 1, 1ns)` at instant 100,
`Peek(1)` and `Get(1)` agree at instant 100 (found) and at instant 101
(expired), in both wrappers. -/
theorem C17_Peek_agrees_with_Get_witness :
    ((example_engine.lruCache.PutWithTTL 1 (cache.Value.user 1) 1 ⟨100⟩).Peek 1 ⟨100⟩ =
      ((example_engine.lruCache.PutWithTTL 1 (cache.Value.user 1) 1 ⟨100⟩).Get 1 ⟨100⟩).1) ∧
    ((example_engine.arcCache.PutWithTTL 1 (cache.Value.user 1) 1 ⟨100⟩).Peek 1 ⟨101⟩ =
      ((example_engine.arcCache.PutWithTTL 1 (cache.Value.user 1) 1 ⟨100⟩).Get 1 ⟨101⟩).1) :=
  ⟨(C17_Peek_agrees_with_Get 1 ⟨100⟩).1.1
      (example_engine.lruCache.PutWithTTL 1 (cache.Value.user 1) 1 ⟨100⟩) (by decide),
   (C17_Peek_agrees_with_Get 1 ⟨101⟩).2.1
      (example_engine.arcCache.PutWithTTL 1 (cache.Value.user 1) 1 ⟨100⟩) (by decide)⟩

/-- C18 (the code departs from it): in the ristretto wrapper `Peek(key)` is
the engine's `Get(key)`: it returns the engine's answer, touches no wrapper
metric, and leaves the engine in the state its access-recording `Get` leaves
it in.  On the example engine, after `PutWithTTL(1, 1, 1ms)` a `Peek(1)` moves
the engine's hit counter from 0 to 1. -/
theorem C18_ristretto_Peek_is_engine_Get :
    (∀ (σ K V : Type) (c : ristretto.Cache σ K V) (key : K) (now : cache.Time),
      (c.Peek key now).1 = (c.cache.Get key now c.st).1 ∧
      (c.Peek key now).2.st = (c.cache.Get key now c.st).2 ∧
      (c.Peek key now).2.metrics = c.metrics) ∧
    (example_ristretto.testCache.PutWithTTL 1 (cache.Value.user 1) 1000000 ⟨100⟩).st.hits = 0 ∧
    ((example_ristretto.testCache.PutWithTTL 1 (cache.Value.user 1) 1000000 ⟨100⟩).Peek 1
      ⟨200⟩).1 = (cache.Value.user 1, true) ∧
    ((example_ristretto.testCache.PutWithTTL 1 (cache.Value.user 1) 1000000 ⟨100⟩).Peek 1
      ⟨200⟩).2.st.hits = 1 ∧
    ((example_ristretto.testCache.PutWithTTL 1 (cache.Value.user 1) 1000000 ⟨100⟩).Peek 1
      ⟨200⟩).2.st ≠
      (example_ristretto.testCache.PutWithTTL 1 (cache.Value.user 1) 1000000 ⟨100⟩).st := by
  refine ⟨fun σ K V c key now => ⟨rfl, rfl, rfl⟩, by decide, by decide, by decide, by decide⟩

namespace cache

/-- The counters after the deferred function of `Get`, case by case. -/
theorem getDeferred_counts (m : CacheMetrics) (ok expired : Bool) :
    (getDeferred m ok expired).ResponseTimeGet = m.ResponseTimeGet + 1 ∧
    (getDeferred m ok expired).ResponseTimeSet = m.ResponseTimeSet ∧
    (getDeferred m ok expired).ResponseTimeDelete = m.ResponseTimeDelete ∧
    (getDeferred m ok expired).ItemNumber = m.ItemNumber ∧
    (getDeferred m ok expired).HitCount = m.HitCount + (if ok then 1 else 0) ∧
    (getDeferred m ok expired).ExpiredCount =
      m.ExpiredCount + (if !ok && expired then 1 else 0) ∧
    (getDeferred m ok expired).MissCount =
      m.MissCount + (if !ok && !expired then 1 else 0) := by
  cases ok <;> cases expired <;> simp [getDeferred]

/-- The expiry test of `Get` fails exactly on an expiry instant that is set
and not after `now`. -/
theorem expiry_test_false_iff (expires now : Time) :
    ¬ ((expires.IsZero || now.Before expires) = true) ↔
      (expires.IsZero = false ∧ expires.ns ≤ now.ns) := by
  simp only [Time.IsZero, Time.Before, Bool.or_eq_true, beq_iff_eq, decide_eq_true_eq,
    not_or, beq_eq_false_iff_ne, ne_eq]
  constructor
  · rintro ⟨h1, h2⟩
    exact ⟨h1, by omega⟩
  · rintro ⟨h1, h2⟩
    exact ⟨h1, by omega⟩

end cache

namespace cache

/-- One `Get` call of the lru or arc wrapper, seen through the engine's
answer, the call's result and the metrics before and after. -/
theorem get_observed {V : Type} (m m' : CacheMetrics) (answer : Value V × Bool) (now : Time)
    (result : Result (Value V × Bool))
    (h : (result, m') =
      match answer with
      | (Value.entry value expires, true) =>
        if expires.IsZero || now.Before expires then
          (Result.ret (value, true), getDeferred m true false)
        else (Result.ret (Value.nil, false), getDeferred m false true)
      | (_, true) => (Result.panic, getDeferred m true false)
      | (_, false) => (Result.ret (Value.nil, false), getDeferred m false false)) :
    m'.ResponseTimeGet = m.ResponseTimeGet + 1 ∧
    m'.ResponseTimeSet = m.ResponseTimeSet ∧
    m'.ResponseTimeDelete = m.ResponseTimeDelete ∧
    (m'.HitCount + m'.ExpiredCount + m'.MissCount =
      m.HitCount + m.ExpiredCount + m.MissCount + 1 ∧
      m.HitCount ≤ m'.HitCount ∧ m.ExpiredCount ≤ m'.ExpiredCount ∧
      m.MissCount ≤ m'.MissCount) ∧
    (m'.HitCount = m.HitCount + 1 ↔
      ((∃ v, result = Result.ret (v, true)) ∨ result = Result.panic)) ∧
    (result = Result.panic ↔
      ∃ v, answer = (v, true) ∧ ∀ value expires, v ≠ Value.entry value expires) ∧
    (m'.ExpiredCount = m.ExpiredCount + 1 ↔
      ∃ value expires, answer = (Value.entry value expires, true) ∧
        expires.IsZero = false ∧ expires.ns ≤ now.ns) ∧
    (m'.MissCount = m.MissCount + 1 ↔ answer.2 = false) := by
  rcases answer with ⟨v, b⟩
  cases b
  · have h' : (result, m') = (Result.ret (Value.nil, false), getDeferred m false false) := by
      rw [h]
      cases v <;> rfl
    obtain ⟨hr, hm⟩ := Prod.mk.inj h'
    subst hr hm
    have hc := getDeferred_counts m false false
    simp at hc
    obtain ⟨h1, h2, h3, _, h5, h6, h7⟩ := hc
    refine ⟨h1, h2, h3, ⟨by omega, by omega, by omega, by omega⟩, ?_, ?_, ?_, ?_⟩
    · constructor
      · intro hh; omega
      · rintro (⟨v', hv'⟩ | hp)
        · simp at hv'
        · exact Result.noConfusion hp
    · constructor
      · intro hp
        exact Result.noConfusion hp
      · rintro ⟨v', hv', _⟩
        simp at hv'
    · constructor
      · intro hh; omega
      · rintro ⟨value, expires, hh, _⟩
        simp at hh
    · simp [h7]
  · have hpanic : ∀ x : Value V, (∀ value expires, x ≠ Value.entry value expires) →
        (result, m') =
          (match (x, true) with
          | (Value.entry value expires, true) =>
            if expires.IsZero || now.Before expires then
              (Result.ret (value, true), getDeferred m true false)
            else (Result.ret (Value.nil, false), getDeferred m false true)
          | (_, true) => (Result.panic, getDeferred m true false)
          | (_, false) => (Result.ret (Value.nil, false), getDeferred m false false)) →
        (result, m') = (Result.panic, getDeferred m true false) := by
      intro x hx hxm
      rw [hxm]
      cases x with
      | nil => rfl
      | user _ => rfl
      | entry value expires => exact absurd rfl (hx value expires)
    by_cases hent : ∃ value expires, v = Value.entry value expires
    · obtain ⟨value, expires, rfl⟩ := hent
      dsimp only at h
      by_cases ht : (expires.IsZero || now.Before expires) = true
      · rw [if_pos ht] at h
        obtain ⟨hr, hm⟩ := Prod.mk.inj h
        subst hr hm
        have hc := getDeferred_counts m true false
        simp at hc
        obtain ⟨h1, h2, h3, _, h5, h6, h7⟩ := hc
        refine ⟨h1, h2, h3, ⟨by omega, by omega, by omega, by omega⟩, ?_, ?_, ?_, ?_⟩
        · exact ⟨fun _ => Or.inl ⟨value, rfl⟩, fun _ => h5⟩
        · constructor
          · intro hp
            exact Result.noConfusion hp
          · rintro ⟨v', hv', hne⟩
            have hv'' : Value.entry value expires = v' := congrArg Prod.fst hv'
            exact absurd hv''.symm (hne value expires)
        · constructor
          · intro hh; omega
          · rintro ⟨value', expires', hh, hz, hle⟩
            have he : expires' = expires := by
              have := congrArg Prod.fst hh
              simp only [Value.entry.injEq] at this
              exact this.2.symm
            subst he
            exact absurd ht ((expiry_test_false_iff expires' now).mpr ⟨hz, hle⟩)
        · constructor
          · intro hh; omega
          · intro hh
            simp at hh
      · rw [if_neg ht] at h
        obtain ⟨hr, hm⟩ := Prod.mk.inj h
        subst hr hm
        have hc := getDeferred_counts m false true
        simp at hc
        obtain ⟨h1, h2, h3, _, h5, h6, h7⟩ := hc
        refine ⟨h1, h2, h3, ⟨by omega, by omega, by omega, by omega⟩, ?_, ?_, ?_, ?_⟩
        · constructor
          · intro hh; omega
          · rintro (⟨v', hv'⟩ | hp)
            · simp at hv'
            · exact Result.noConfusion hp
        · constructor
          · intro hp
            exact Result.noConfusion hp
          · rintro ⟨v', hv', hne⟩
            have hv'' : Value.entry value expires = v' := congrArg Prod.fst hv'
            exact absurd hv''.symm (hne value expires)
        · exact ⟨fun _ => ⟨value, expires, rfl, (expiry_test_false_iff expires now).mp ht⟩,
            fun _ => h6⟩
        · constructor
          · intro hh; omega
          · intro hh
            simp at hh
    · have hne : ∀ value expires, v ≠ Value.entry value expires :=
        fun value expires hv => hent ⟨value, expires, hv⟩
      obtain ⟨hr, hm⟩ := Prod.mk.inj (hpanic v hne h)
      subst hr hm
      have hc := getDeferred_counts m true false
      simp at hc
      obtain ⟨h1, h2, h3, _, h5, h6, h7⟩ := hc
      refine ⟨h1, h2, h3, ⟨by omega, by omega, by omega, by omega⟩, ?_, ?_, ?_, ?_⟩
      · exact ⟨fun _ => Or.inr rfl, fun _ => h5⟩
      · exact ⟨fun _ => ⟨v, rfl, hne⟩, fun _ => rfl⟩
      · constructor
        · intro hh; omega
        · rintro ⟨value, expires, hh, _, _⟩
          exact absurd (congrArg Prod.fst hh) (hne value expires)
      · constructor
        · intro hh; omega
        · intro hh
          simp at hh

end cache

/-- C19, as stated, fails: after the promoted `Add(1, 5)` has stored the bare
value 5 in the engine, `Get(1)` panics at its type assertion, so it does not
return found, and its deferred function, which runs with `ok` true, has
incremented `HitCount` from 0 to 1; in the lru and in the arc wrapper. -/
theorem C19_hit_without_found_counterexample :
    (((example_engine.lruCache.Add 1 (cache.Value.user 5)).Get 1 ⟨100⟩).1 =
        cache.Result.panic ∧
      (example_engine.lruCache.Add 1 (cache.Value.user 5)).metrics.HitCount = 0 ∧
      ((example_engine.lruCache.Add 1 (cache.Value.user 5)).Get 1
        ⟨100⟩).2.metrics.HitCount = 1 ∧
      ¬ ∃ v, ((example_engine.lruCache.Add 1 (cache.Value.user 5)).Get 1 ⟨100⟩).1 =
        cache.Result.ret (v, true)) ∧
    (((example_engine.arcCache.Add 1 (cache.Value.user 5)).Get 1 ⟨100⟩).1 =
        cache.Result.panic ∧
      (example_engine.arcCache.Add 1 (cache.Value.user 5)).metrics.HitCount = 0 ∧
      ((example_engine.arcCache.Add 1 (cache.Value.user 5)).Get 1
        ⟨100⟩).2.metrics.HitCount = 1 ∧
      ¬ ∃ v, ((example_engine.arcCache.Add 1 (cache.Value.user 5)).Get 1 ⟨100⟩).1 =
        cache.Result.ret (v, true)) := by
  have hl : ((example_engine.lruCache.Add 1 (cache.Value.user 5)).Get 1 ⟨100⟩).1 =
      cache.Result.panic := by decide
  have ha : ((example_engine.arcCache.Add 1 (cache.Value.user 5)).Get 1 ⟨100⟩).1 =
      cache.Result.panic := by decide
  refine ⟨⟨hl, by decide, by decide, ?_⟩, ⟨ha, by decide, by decide, ?_⟩⟩
  · rintro ⟨v, hv⟩
    rw [hl] at hv
    exact cache.Result.noConfusion hv
  · rintro ⟨v, hv⟩
    rw [ha] at hv
    exact cache.Result.noConfusion hv

/-- C19, amended: in the lru and arc wrappers every `Get` call observes the
get-latency histogram exactly once (and no other histogram) and increments
exactly one of the three counters by one: `ExpiredCount` if and only if the
engine holds the key with an entry whose expiry instant is set and not after
now, `MissCount` if and only if the engine does not hold the key, and
`HitCount` if and only if the call returns found or panics; it panics exactly
when the engine holds under the key a value that is not an entry.  So a `Get`
call that returns increments `HitCount` if and only if it returns found. -/
theorem C19_Get_counts_once {σ K V : Type} (key : K) (now : cache.Time) :
    (∀ c : lru.Cache σ K V,
      (c.Get key now).2.metrics.ResponseTimeGet = c.metrics.ResponseTimeGet + 1 ∧
      (c.Get key now).2.metrics.ResponseTimeSet = c.metrics.ResponseTimeSet ∧
      (c.Get key now).2.metrics.ResponseTimeDelete = c.metrics.ResponseTimeDelete ∧
      ((c.Get key now).2.metrics.HitCount + (c.Get key now).2.metrics.ExpiredCount +
          (c.Get key now).2.metrics.MissCount =
        c.metrics.HitCount + c.metrics.ExpiredCount + c.metrics.MissCount + 1 ∧
        c.metrics.HitCount ≤ (c.Get key now).2.metrics.HitCount ∧
        c.metrics.ExpiredCount ≤ (c.Get key now).2.metrics.ExpiredCount ∧
        c.metrics.MissCount ≤ (c.Get key now).2.metrics.MissCount) ∧
      ((c.Get key now).2.metrics.HitCount = c.metrics.HitCount + 1 ↔
        ((∃ v, (c.Get key now).1 = cache.Result.ret (v, true)) ∨
          (c.Get key now).1 = cache.Result.panic)) ∧
      ((c.Get key now).1 = cache.Result.panic ↔
        ∃ v, (c.engine.Get key c.st).1 = (v, true) ∧
          ∀ value expires, v ≠ cache.Value.entry value expires) ∧
      ((c.Get key now).2.metrics.ExpiredCount = c.metrics.ExpiredCount + 1 ↔
        ∃ value expires,
          (c.engine.Get key c.st).1 = (cache.Value.entry value expires, true) ∧
          expires.IsZero = false ∧ expires.ns ≤ now.ns) ∧
      ((c.Get key now).2.metrics.MissCount = c.metrics.MissCount + 1 ↔
        (c.engine.Get key c.st).1.2 = false) ∧
      ((c.Get key now).1 ≠ cache.Result.panic →
        ((c.Get key now).2.metrics.HitCount = c.metrics.HitCount + 1 ↔
          ∃ v, (c.Get key now).1 = cache.Result.ret (v, true)))) ∧
    (∀ c : arc.Cache σ K V,
      (c.Get key now).2.metrics.ResponseTimeGet = c.metrics.ResponseTimeGet + 1 ∧
      (c.Get key now).2.metrics.ResponseTimeSet = c.metrics.ResponseTimeSet ∧
      (c.Get key now).2.metrics.ResponseTimeDelete = c.metrics.ResponseTimeDelete ∧
      ((c.Get key now).2.metrics.HitCount + (c.Get key now).2.metrics.ExpiredCount +
          (c.Get key now).2.metrics.MissCount =
        c.metrics.HitCount + c.metrics.ExpiredCount + c.metrics.MissCount + 1 ∧
        c.metrics.HitCount ≤ (c.Get key now).2.metrics.HitCount ∧
        c.metrics.ExpiredCount ≤ (c.Get key now).2.metrics.ExpiredCount ∧
        c.metrics.MissCount ≤ (c.Get key now).2.metrics.MissCount) ∧
      ((c.Get key now).2.metrics.HitCount = c.metrics.HitCount + 1 ↔
        ((∃ v, (c.Get key now).1 = cache.Result.ret (v, true)) ∨
          (c.Get key now).1 = cache.Result.panic)) ∧
      ((c.Get key now).1 = cache.Result.panic ↔
        ∃ v, (c.engine.Get key c.st).1 = (v, true) ∧
          ∀ value expires, v ≠ cache.Value.entry value expires) ∧
      ((c.Get key now).2.metrics.ExpiredCount = c.metrics.ExpiredCount + 1 ↔
        ∃ value expires,
          (c.engine.Get key c.st).1 = (cache.Value.entry value expires, true) ∧
          expires.IsZero = false ∧ expires.ns ≤ now.ns) ∧
      ((c.Get key now).2.metrics.MissCount = c.metrics.MissCount + 1 ↔
        (c.engine.Get key c.st).1.2 = false) ∧
      ((c.Get key now).1 ≠ cache.Result.panic →
        ((c.Get key now).2.metrics.HitCount = c.metrics.HitCount + 1 ↔
          ∃ v, (c.Get key now).1 = cache.Result.ret (v, true)))) := by
  refine ⟨fun c => ?_, fun c => ?_⟩
  · obtain ⟨h1, h2, h3, h4, h5, h6, h7, h8⟩ :=
      cache.get_observed c.metrics _ _ now _ (lru.Get_eq_lru c key now)
    exact ⟨h1, h2, h3, h4, h5, h6, h7, h8, fun hnp =>
      ⟨fun h => (h5.mp h).resolve_right hnp, fun h => h5.mpr (Or.inl h)⟩⟩
  · obtain ⟨h1, h2, h3, h4, h5, h6, h7, h8⟩ :=
      cache.get_observed c.metrics _ _ now _ (arc.Get_eq_arc c key now)
    exact ⟨h1, h2, h3, h4, h5, h6, h7, h8, fun hnp =>
      ⟨fun h => (h5.mp h).resolve_right hnp, fun h => h5.mpr (Or.inl h)⟩⟩

/-- C19, amended, on the example engine, after `PutWithTTL(1, 1, 1ns)` at
instant 100: a `Get(1)` at instant 101 in the lru wrapper adds one to the get
histogram and to `ExpiredCount`, a `Get(2)` in the arc wrapper adds one to
`MissCount`, and a `Get(1)` at instant 100 in the arc wrapper, which returns,
adds one to `HitCount`. -/
theorem C19_Get_counts_once_witness :
    (((example_engine.lruCache.PutWithTTL 1 (cache.Value.user 1) 1 ⟨100⟩).Get 1
        ⟨101⟩).2.metrics.ResponseTimeGet = 1 ∧
      ((example_engine.lruCache.PutWithTTL 1 (cache.Value.user 1) 1 ⟨100⟩).Get 1
        ⟨101⟩).2.metrics.ExpiredCount = 1) ∧
    ((example_engine.arcCache.PutWithTTL 1 (cache.Value.user 1) 1 ⟨100⟩).Get 2
        ⟨101⟩).2.metrics.MissCount = 1 ∧
    ((example_engine.arcCache.PutWithTTL 1 (cache.Value.user 1) 1 ⟨100⟩).Get 1
        ⟨100⟩).2.metrics.HitCount = 1 := by
  have hl := (C19_Get_counts_once 1 ⟨101⟩).1
    (example_engine.lruCache.PutWithTTL 1 (cache.Value.user 1) 1 ⟨100⟩)
  have ha := (C19_Get_counts_once 2 ⟨101⟩).2
    (example_engine.arcCache.PutWithTTL 1 (cache.Value.user 1) 1 ⟨100⟩)
  have hh := (C19_Get_counts_once 1 ⟨100⟩).2
    (example_engine.arcCache.PutWithTTL 1 (cache.Value.user 1) 1 ⟨100⟩)
  refine ⟨⟨hl.1, ?_⟩, ?_, ?_⟩
  · exact hl.2.2.2.2.2.2.1.mpr ⟨cache.Value.user 1, ⟨101⟩, by decide, by decide, by decide⟩
  · exact ha.2.2.2.2.2.2.2.1.mpr (by decide)
  · exact (hh.2.2.2.2.2.2.2.2 (by decide)).mpr ⟨cache.Value.user 1, by decide⟩

/-- C20 (the code departs from it): in the ristretto wrapper no `Get` call
ever increments `ExpiredCount`, and every `Get` that reports not-found
increments `MissCount`.  On the example engine at the wrapper test,
`PutWithTTL(1, 1, 1ms)` at instant 100 followed by `Get(1)` five milliseconds
later reports `(nil, false)` with `MissCount` 1 and `ExpiredCount` 0. -/
theorem C20_ristretto_expired_counted_as_miss :
    (∀ (σ K V : Type) (c : ristretto.Cache σ K V) (key : K) (now : cache.Time),
      (c.Get key now).2.metrics.ExpiredCount = c.metrics.ExpiredCount ∧
      (c.Get key now).2.metrics.MissCount =
        c.metrics.MissCount + (if (c.Get key now).1.2 then 0 else 1)) ∧
    ((example_ristretto.testCache.PutWithTTL 1 (cache.Value.user 1) 1000000 ⟨100⟩).Get 1
      ⟨5000100⟩).1 = (cache.Value.nil, false) ∧
    ((example_ristretto.testCache.PutWithTTL 1 (cache.Value.user 1) 1000000 ⟨100⟩).Get 1
      ⟨5000100⟩).2.metrics.MissCount = 1 ∧
    ((example_ristretto.testCache.PutWithTTL 1 (cache.Value.user 1) 1000000 ⟨100⟩).Get 1
      ⟨5000100⟩).2.metrics.ExpiredCount = 0 ∧
    (example_ristretto.testCache.PutWithTTL 1 (cache.Value.user 1) 1000000 ⟨100⟩).st.items =
      [(1, cache.Value.user 1, ⟨1000100⟩)] := by
  refine ⟨fun σ K V c key now => ?_, by decide, by decide, by decide, by decide⟩
  unfold ristretto.Cache.Get
  dsimp only
  have hc := cache.getDeferred_counts c.metrics (c.cache.Get key now c.st).1.2 false
  refine ⟨?_, ?_⟩
  · rw [hc.2.2.2.2.2.1]
    simp
  · rw [hc.2.2.2.2.2.2]
    cases (c.cache.Get key now c.st).1.2 <;> simp

/-! ## Writes, lazy expiry, closing and resizing -/

/-- C21 (the code departs from it): the ristretto `PutWithTTL` takes the
no-expiry `Set` only for `ttl == 0`; with `ttl = -1` it calls the engine's
`SetWithTTL` with that negative TTL.  On the example engine, which like
ristretto drops a write with a negative TTL, `PutWithTTL(1, 1, -1)` stores
nothing and a following `Get(1)` reports not-found, whereas
`PutWithTTL(1, 1, 0)` stores the entry without expiry. -/
theorem C21_ristretto_negative_ttl_not_Set :
    (∀ (σ K V : Type) (c : ristretto.Cache σ K V) (key : K) (value : cache.Value V)
        (now : cache.Time),
      (c.PutWithTTL key value 0 now).st = c.cache.Set key value c.cost c.st ∧
      (c.PutWithTTL key value (-1) now).st =
        c.cache.SetWithTTL key value c.cost (-1) now c.st) ∧
    (example_ristretto.testCache.PutWithTTL 1 (cache.Value.user 1) 0 ⟨100⟩).st.items =
      [(1, cache.Value.user 1, cache.Time.zero)] ∧
    (example_ristretto.testCache.PutWithTTL 1 (cache.Value.user 1) (-1) ⟨100⟩).st.items = [] ∧
    ((example_ristretto.testCache.PutWithTTL 1 (cache.Value.user 1) (-1) ⟨100⟩).Get 1
      ⟨100⟩).1 = (cache.Value.nil, false) ∧
    ((example_ristretto.testCache.PutWithTTL 1 (cache.Value.user 1) 0 ⟨100⟩).Get 1
      ⟨100⟩).1 = (cache.Value.user 1, true) := by
  refine ⟨fun σ K V c key value now => ⟨?_, ?_⟩, by decide, by decide, by decide, by decide⟩
  · simp [ristretto.Cache.PutWithTTL]
  · simp [ristretto.Cache.PutWithTTL]

/-- The engine state the lru `Get` leaves is the one the engine's `Get`
returns, and the rest of the cache but the metrics is untouched. -/
theorem lru.Get_state_lru {σ K V : Type} (c : lru.Cache σ K V) (key : K) (now : cache.Time) :
    (c.Get key now).2.st = (c.engine.Get key c.st).2 ∧
    (c.Get key now).2.engine = c.engine ∧ (c.Get key now).2.cap = c.cap ∧
    (c.Get key now).2.close = c.close := by
  unfold lru.Cache.Get
  dsimp only
  generalize c.engine.Get key c.st = r
  rcases r with ⟨⟨v, b⟩, st⟩
  cases b
  · exact ⟨rfl, rfl, rfl, rfl⟩
  · cases v with
    | nil => exact ⟨rfl, rfl, rfl, rfl⟩
    | user _ => exact ⟨rfl, rfl, rfl, rfl⟩
    | entry value expires =>
      dsimp only
      split <;> exact ⟨rfl, rfl, rfl, rfl⟩

/-- The engine state the arc `Get` leaves is the one the engine's `Get`
returns, and the rest of the cache but the metrics is untouched. -/
theorem arc.Get_state_arc {σ K V : Type} (c : arc.Cache σ K V) (key : K) (now : cache.Time) :
    (c.Get key now).2.st = (c.engine.Get key c.st).2 ∧
    (c.Get key now).2.engine = c.engine ∧ (c.Get key now).2.cap = c.cap ∧
    (c.Get key now).2.close = c.close := by
  unfold arc.Cache.Get
  dsimp only
  generalize c.engine.Get key c.st = r
  rcases r with ⟨⟨v, b⟩, st⟩
  cases b
  · exact ⟨rfl, rfl, rfl, rfl⟩
  · cases v with
    | nil => exact ⟨rfl, rfl, rfl, rfl⟩
    | user _ => exact ⟨rfl, rfl, rfl, rfl⟩
    | entry value expires =>
      dsimp only
      split <;> exact ⟨rfl, rfl, rfl, rfl⟩

/-- C22: in the lru and arc wrappers, a `Get` that finds an entry whose expiry
instant is set and not after now reports `(nil, false)` and does nothing to
the engine beyond the engine's own `Get`: the engine is left in the state its
`Get` returns, so on an engine whose `Get` keeps the key and the length, the
key is still held and `Len()` is as before.  A `Peek` that finds such an entry
reports `(nil, false)` and, like every `Peek`, leaves no new state. -/
theorem C22_lazy_expiry {σ K V : Type} (key : K) (now : cache.Time)
    (value : cache.Value V) (expires : cache.Time)
    (hset : expires.IsZero = false) (hpast : expires.ns ≤ now.ns) :
    (∀ c : lru.Cache σ K V,
      ((c.engine.Get key c.st).1 = (cache.Value.entry value expires, true) →
        (c.Get key now).1 = cache.Result.ret (cache.Value.nil, false) ∧
        (c.Get key now).2.st = (c.engine.Get key c.st).2 ∧
        (c.engine.Len (c.engine.Get key c.st).2 = c.engine.Len c.st →
          (c.Get key now).2.Len = c.Len) ∧
        (c.engine.Contains key (c.engine.Get key c.st).2 = true →
          (c.Get key now).2.Contains key = true)) ∧
      (c.engine.Peek key c.st = (cache.Value.entry value expires, true) →
        c.Peek key now = cache.Result.ret (cache.Value.nil, false))) ∧
    (∀ c : arc.Cache σ K V,
      ((c.engine.Get key c.st).1 = (cache.Value.entry value expires, true) →
        (c.Get key now).1 = cache.Result.ret (cache.Value.nil, false) ∧
        (c.Get key now).2.st = (c.engine.Get key c.st).2 ∧
        (c.engine.Len (c.engine.Get key c.st).2 = c.engine.Len c.st →
          (c.Get key now).2.Len = c.Len) ∧
        (c.engine.Contains key (c.engine.Get key c.st).2 = true →
          (c.Get key now).2.Contains key = true)) ∧
      (c.engine.Peek key c.st = (cache.Value.entry value expires, true) →
        c.Peek key now = cache.Result.ret (cache.Value.nil, false))) := by
  have hexp : ¬ ((expires.IsZero || now.Before expires) = true) :=
    (cache.expiry_test_false_iff expires now).mpr ⟨hset, hpast⟩
  constructor
  · intro c
    obtain ⟨hst, heng, _, _⟩ := lru.Get_state_lru c key now
    refine ⟨fun h => ⟨?_, hst, fun hlen => ?_, fun hc => ?_⟩, fun h => ?_⟩
    · rw [lru.Get_of_resident_lru c key value expires now h, if_neg hexp]
    · unfold lru.Cache.Len
      rw [hst, heng, hlen]
    · unfold lru.Cache.Contains
      rw [hst, heng, hc]
    · rw [lru.Peek_eq_lru, h]
      dsimp only
      rw [if_neg hexp]
  · intro c
    obtain ⟨hst, heng, _, _⟩ := arc.Get_state_arc c key now
    refine ⟨fun h => ⟨?_, hst, fun hlen => ?_, fun hc => ?_⟩, fun h => ?_⟩
    · rw [arc.Get_of_resident_arc c key value expires now h, if_neg hexp]
    · unfold arc.Cache.Len
      rw [hst, heng, hlen]
    · unfold arc.Cache.Contains
      rw [hst, heng, hc]
    · rw [arc.Peek_eq_arc, h]
      dsimp only
      rw [if_neg hexp]

/-- C22 on the example engine: after `PutWithTTL(1, 1, 1ns)` at instant 100, a
`Get(1)` at instant 101 reports `(nil, false)` and the lru wrapper still has
length 1 and still holds key 1; a `Peek(1)` in the arc wrapper reports
`(nil, false)` too. -/
theorem C22_lazy_expiry_witness :
    (((example_engine.lruCache.PutWithTTL 1 (cache.Value.user 1) 1 ⟨100⟩).Get 1 ⟨101⟩).1 =
        cache.Result.ret (cache.Value.nil, false) ∧
      ((example_engine.lruCache.PutWithTTL 1 (cache.Value.user 1) 1 ⟨100⟩).Get 1
        ⟨101⟩).2.Len =
        (example_engine.lruCache.PutWithTTL 1 (cache.Value.user 1) 1 ⟨100⟩).Len ∧
      ((example_engine.lruCache.PutWithTTL 1 (cache.Value.user 1) 1 ⟨100⟩).Get 1
        ⟨101⟩).2.Contains 1 = true) ∧
    (example_engine.arcCache.PutWithTTL 1 (cache.Value.user 1) 1 ⟨100⟩).Peek 1 ⟨101⟩ =
      cache.Result.ret (cache.Value.nil, false) := by
  have h := @C22_lazy_expiry example_engine.Store Nat Nat 1 ⟨101⟩
    (cache.Value.user 1) ⟨101⟩ (by decide) (by decide)
  have hl := (h.1 (example_engine.lruCache.PutWithTTL 1 (cache.Value.user 1) 1 ⟨100⟩)).1
    (by decide)
  exact ⟨⟨hl.1, hl.2.2.1 (by decide), hl.2.2.2 (by decide)⟩,
    (h.2 (example_engine.arcCache.PutWithTTL 1 (cache.Value.user 1) 1 ⟨100⟩)).2 (by decide)⟩

/-- The lru `Close` on a cache whose channel is closed returns nil and changes
nothing. -/
theorem lru.Close_closed_lru {σ K V : Type} (d : lru.Cache σ K V) (h : d.close = true) :
    d.Close = (cache.Result.ret none, d) := by
  unfold lru.Cache.Close
  rw [if_pos h]

/-- The arc `Close` on a cache whose channel is closed returns nil and changes
nothing. -/
theorem arc.Close_closed_arc {σ K V : Type} (d : arc.Cache σ K V) (h : d.close = true) :
    d.Close = (cache.Result.ret none, d) := by
  unfold arc.Cache.Close
  rw [if_pos h]

/-- The ristretto `Close` on a cache whose channel is closed returns nil and
changes nothing. -/
theorem ristretto.Close_closed_ristretto {σ K V : Type} (d : ristretto.Cache σ K V)
    (h : d.close = true) : d.Close = (cache.Result.ret none, d) := by
  unfold ristretto.Cache.Close
  rw [if_pos h]

/-- Repeating a step that leaves a state alone leaves it alone. -/
theorem cache.iterate_fixed {α : Type} (f : α → α) (x : α) (h : f x = x) :
    ∀ k : Nat, Nat.iterate f k x = x := by
  intro k
  induction k with
  | zero => rfl
  | succ k ih => rw [Function.iterate_succ_apply, h, ih]

/-- C23: in the lru, arc and ristretto wrappers, on a cache whose lifecycle
channel is open, the first `Close` returns nil, clears the engine (and, in
ristretto, closes it) and closes the channel; after any number `k` of further
calls the cache is exactly as the first call left it, and the next call again
returns nil without panicking. -/
theorem C23_Close_idempotent {σ K V : Type} :
    (∀ c : lru.Cache σ K V, c.close = false →
      (c.Close).1 = cache.Result.ret none ∧
      (c.Close).2.st = c.engine.Purge c.st ∧
      (c.Close).2.close = true ∧
      ∀ k : Nat,
        Nat.iterate (fun d : lru.Cache σ K V => (d.Close).2) k (c.Close).2 = (c.Close).2 ∧
        ((Nat.iterate (fun d : lru.Cache σ K V => (d.Close).2) k (c.Close).2).Close).1 =
          cache.Result.ret none) ∧
    (∀ c : arc.Cache σ K V, c.close = false →
      (c.Close).1 = cache.Result.ret none ∧
      (c.Close).2.st = c.engine.Purge c.st ∧
      (c.Close).2.close = true ∧
      ∀ k : Nat,
        Nat.iterate (fun d : arc.Cache σ K V => (d.Close).2) k (c.Close).2 = (c.Close).2 ∧
        ((Nat.iterate (fun d : arc.Cache σ K V => (d.Close).2) k (c.Close).2).Close).1 =
          cache.Result.ret none) ∧
    (∀ c : ristretto.Cache σ K V, c.close = false →
      (c.Close).1 = cache.Result.ret none ∧
      (c.Close).2.st = c.cache.Close (c.cache.Clear c.st) ∧
      (c.Close).2.close = true ∧
      ∀ k : Nat,
        Nat.iterate (fun d : ristretto.Cache σ K V => (d.Close).2) k (c.Close).2 =
          (c.Close).2 ∧
        ((Nat.iterate (fun d : ristretto.Cache σ K V => (d.Close).2) k (c.Close).2).Close).1 =
          cache.Result.ret none) := by
  refine ⟨fun c h => ?_, fun c h => ?_, fun c h => ?_⟩
  · have h1 : c.Close = (cache.Result.ret none,
        { c.Clear with close := true }) := by
      unfold lru.Cache.Close
      rw [if_neg (by simp [h])]
      dsimp only
      rw [if_neg (by simp [lru.Cache.Clear, h])]
    have hc : (c.Close).2.close = true := by rw [h1]
    have hfix := cache.iterate_fixed (fun d : lru.Cache σ K V => (d.Close).2) (c.Close).2
      (by dsimp only; rw [lru.Close_closed_lru _ hc])
    refine ⟨by rw [h1], by rw [h1]; rfl, hc, fun k => ⟨hfix k, ?_⟩⟩
    rw [hfix k, lru.Close_closed_lru _ hc]
  · have h1 : c.Close = (cache.Result.ret none,
        { c.Clear with close := true }) := by
      unfold arc.Cache.Close
      rw [if_neg (by simp [h])]
      dsimp only
      rw [if_neg (by simp [arc.Cache.Clear, h])]
    have hc : (c.Close).2.close = true := by rw [h1]
    have hfix := cache.iterate_fixed (fun d : arc.Cache σ K V => (d.Close).2) (c.Close).2
      (by dsimp only; rw [arc.Close_closed_arc _ hc])
    refine ⟨by rw [h1], by rw [h1]; rfl, hc, fun k => ⟨hfix k, ?_⟩⟩
    rw [hfix k, arc.Close_closed_arc _ hc]
  · have h1 : c.Close = (cache.Result.ret none,
        { c with st := c.cache.Close (c.cache.Clear c.st), close := true }) := by
      unfold ristretto.Cache.Close
      rw [if_neg (by simp [h])]
      dsimp only
      rw [if_neg (by simp [ristretto.Cache.Clear, h])]
      rfl
    have hc : (c.Close).2.close = true := by rw [h1]
    have hfix := cache.iterate_fixed (fun d : ristretto.Cache σ K V => (d.Close).2)
      (c.Close).2 (by dsimp only; rw [ristretto.Close_closed_ristretto _ hc])
    refine ⟨by rw [h1], by rw [h1], hc, fun k => ⟨hfix k, ?_⟩⟩
    rw [hfix k, ristretto.Close_closed_ristretto _ hc]

/-- C23 on the example caches: after one `Close` the lru cache that held an
entry is empty and closed, and a second and a third `Close` return nil and
leave it so; the ristretto cache likewise. -/
theorem C23_Close_idempotent_witness :
    (((example_engine.lruCache.PutWithTTL 1 (cache.Value.user 1) 1 ⟨100⟩).Close).2.Len = 0 ∧
      ((((example_engine.lruCache.PutWithTTL 1 (cache.Value.user 1) 1
        ⟨100⟩).Close).2.Close).2.Close).1 = cache.Result.ret none) ∧
    ((example_ristretto.testCache.Close).2.Close).1 = cache.Result.ret none := by
  have hl := (@C23_Close_idempotent example_engine.Store Nat Nat).1
    (example_engine.lruCache.PutWithTTL 1 (cache.Value.user 1) 1 ⟨100⟩) (by decide)
  have hr := (@C23_Close_idempotent example_ristretto.Store Nat Nat).2.2
    example_ristretto.testCache (by decide)
  exact ⟨⟨by decide, (hl.2.2.2 1).2⟩, (hr.2.2.2 0).2⟩

/-- C24 (the code departs from it): `SetCap` installs whatever it is given, in
the lru and in the ristretto wrapper: after `SetCap(cap)` the method `Cap()`
returns `cap` and the returned error is nil, for every `cap`.  On the example
caches, built with capacity 1, `SetCap(0)` leaves `Cap() == 0` and `SetCap(-5)`
leaves `Cap() == -5`. -/
theorem C24_SetCap_installs_any_capacity :
    (∀ (σ K V : Type) (c : lru.Cache σ K V) (cap : Int),
      (c.SetCap cap).1 = none ∧ (c.SetCap cap).2.Cap = cap) ∧
    (∀ (σ K V : Type) (c : ristretto.Cache σ K V) (cap : Int),
      (c.SetCap cap).1 = none ∧ (c.SetCap cap).2.Cap = cap) ∧
    example_engine.lruCache.Cap = 1 ∧
    (example_engine.lruCache.SetCap 0).2.Cap = 0 ∧
    example_ristretto.testCache.Cap = 1 ∧
    (example_ristretto.testCache.SetCap (-5)).2.Cap = -5 := by
  refine ⟨fun σ K V c cap => ⟨rfl, rfl⟩, fun σ K V c cap => ⟨rfl, rfl⟩, rfl, rfl, rfl, rfl⟩

/-- C25: for every callback `orig`, key `k` and value `x`, the function
returned by `WrapOnEvictWithUnwrapper(orig)` acts as exactly one call of
`orig`: on `(k, v)` when `x` is an entry holding the user value `v`, and on
`(k, x)` unchanged when `x` is not an entry.  With the recording callback the
record grows by exactly that one pair. -/
theorem C25_unwrapper_calls_orig_once {K V ω : Type} (orig : K → cache.Value V → ω → ω)
    (k : K) :
    (∀ (v : cache.Value V) (expires : cache.Time) (w : ω),
      lru.WrapOnEvictWithUnwrapper orig k (cache.Value.entry v expires) w = orig k v w) ∧
    (∀ (x : cache.Value V) (w : ω),
      (∀ v expires, x ≠ cache.Value.entry v expires) →
      lru.WrapOnEvictWithUnwrapper orig k x w = orig k x w) ∧
    (∀ (v : cache.Value V) (expires : cache.Time) (calls : List (K × cache.Value V)),
      lru.WrapOnEvictWithUnwrapper example_callback.recorder k
        (cache.Value.entry v expires) calls = calls ++ [(k, v)]) ∧
    (∀ (x : cache.Value V) (calls : List (K × cache.Value V)),
      (∀ v expires, x ≠ cache.Value.entry v expires) →
      lru.WrapOnEvictWithUnwrapper example_callback.recorder k x calls =
        calls ++ [(k, x)]) := by
  have hother : ∀ (ω' : Type) (f : K → cache.Value V → ω' → ω') (x : cache.Value V) (w : ω'),
      (∀ v expires, x ≠ cache.Value.entry v expires) →
      lru.WrapOnEvictWithUnwrapper f k x w = f k x w := by
    intro ω' f x w hx
    cases x with
    | nil => rfl
    | user _ => rfl
    | entry v expires => exact absurd rfl (hx v expires)
  exact ⟨fun v expires w => rfl, fun x w hx => hother ω orig x w hx,
    fun v expires calls => rfl, fun x calls hx => hother _ _ x calls hx⟩

/-- C25 at the wrapper test: the wrapped recording callback, called for key 0
with the entry of the user value 7, records `(0, 7)`; called with the bare
value 7, it records `(0, 7)` as well. -/
theorem C25_unwrapper_calls_orig_once_witness :
    lru.WrapOnEvictWithUnwrapper example_callback.recorder (0 : Nat)
        (cache.Value.entry (cache.Value.user (7 : Nat)) ⟨100⟩) [] =
      [(0, cache.Value.user 7)] ∧
    lru.WrapOnEvictWithUnwrapper example_callback.recorder (0 : Nat)
        (cache.Value.user (7 : Nat)) [] = [(0, cache.Value.user 7)] :=
  ⟨(C25_unwrapper_calls_orig_once (example_callback.recorder) (0 : Nat)).1
      (cache.Value.user 7) ⟨100⟩ [],
   (C25_unwrapper_calls_orig_once (example_callback.recorder) (0 : Nat)).2.1
      (cache.Value.user 7) [] (fun _ _ h => cache.Value.noConfusion h)⟩

/-! ## Aggregate calls of the sharded cache -/

/-- C26 (the code departs from it): on every sharded cache with at least one
node, whatever the node methods do, every configuration `doInParallel` can
reach has the caller still in its loop or at `wg.Wait()` and every started
goroutine still before the end of its send on the unbuffered channel; so no
task ever completes and `Len()`, `Cap()` and `Clear()` never return.  On the
sharded cache over "cache-1" and "cache-2", `Clear()` reaches after five steps
a configuration without successor: both nodes are cleared, both goroutines
wait at their send, and the caller waits at `wg.Wait()` with counter 2. -/
theorem C26_aggregate_calls_block_forever :
    (∀ (C ω K V : Type) (ring : cache.HashRing) (node : C) (rest : List C)
        (nodeByName : List (String × C)) (n : cache.Nodes C ω K V) (w : ω),
      (∀ (f : C → ω → Int × ω) (s : cache.Par C ω),
        cache.Par.Reaches f
          ((⟨ring, node :: rest, nodeByName⟩ : cache.shardedCache C).doInParallel w) s →
        s.Stuck) ∧
      (∀ v : Int, ¬ (⟨ring, node :: rest, nodeByName⟩ : cache.shardedCache C).Len n w v) ∧
      (∀ v : Int, ¬ (⟨ring, node :: rest, nodeByName⟩ : cache.shardedCache C).Cap n w v) ∧
      ¬ (⟨ring, node :: rest, nodeByName⟩ : cache.shardedCache C).Clear n w) ∧
    cache.Par.run (fun nc w0 => ((0 : Int), example_sharded.nodes.Clear nc w0)) 5
        (example_sharded.pair.doInParallel
          [(1, "a", cache.Value.user 1), (2, "b", cache.Value.user 2)]) =
      ⟨cache.MainPC.waiting, 2, false, 0, [cache.Worker.sending 0, cache.Worker.sending 0],
        [], false⟩ ∧
    cache.Par.step (fun nc w0 => ((0 : Int), example_sharded.nodes.Clear nc w0))
      (cache.Par.run (fun nc w0 => ((0 : Int), example_sharded.nodes.Clear nc w0)) 5
        (example_sharded.pair.doInParallel
          [(1, "a", cache.Value.user 1), (2, "b", cache.Value.user 2)])) = [] ∧
    cache.Par.Reaches (fun nc w0 => ((0 : Int), example_sharded.nodes.Clear nc w0))
      (example_sharded.pair.doInParallel
        [(1, "a", cache.Value.user 1), (2, "b", cache.Value.user 2)])
      (cache.Par.run (fun nc w0 => ((0 : Int), example_sharded.nodes.Clear nc w0)) 5
        (example_sharded.pair.doInParallel
          [(1, "a", cache.Value.user 1), (2, "b", cache.Value.user 2)])) := by
  refine ⟨?_, by decide, by decide, cache.Par.run_reaches _ _ _⟩
  intro C ω K V ring node rest nodeByName n w
  have hne : (⟨ring, node :: rest, nodeByName⟩ : cache.shardedCache C).nodes ≠ [] :=
    List.cons_ne_nil node rest
  refine ⟨fun f s hs => ?_, fun v => ?_, fun v => ?_, ?_⟩
  · exact (cache.shardedCache.doInParallel_stuck _ w hne).of_reaches f hs
  · exact cache.shardedCache.doInParallel_never_returns _ _ w hne v
  · exact cache.shardedCache.doInParallel_never_returns _ _ w hne v
  · rintro ⟨v, hv⟩
    exact cache.shardedCache.doInParallel_never_returns _ _ w hne v hv

/-! ## When `Register` fails -/

namespace cache

/-- The method `Register` returns nil exactly on a batch without nil entry,
none of whose names is in the map, and whose names are pairwise distinct. -/
theorem Register_no_error_iff {C : Type} (Name : C → String) :
    ∀ (cc : List (Option C)) (r : cacheRegistry C),
      (cacheRegistry.Register Name r cc).2 = none ↔
        (none ∉ cc ∧ (∀ s, some s ∈ cc → r.caches.lookup (Name s) = none) ∧
          (cc.reduceOption.map Name).Nodup) := by
  intro cc
  induction cc with
  | nil =>
    intro r
    simp [cacheRegistry.Register]
  | cons x cc ih =>
    intro r
    cases x with
    | none => simp [cacheRegistry.Register]
    | some s =>
      cases hs : r.caches.lookup (Name s) with
      | some c =>
        have hl : (cacheRegistry.Register Name r (some s :: cc)).2 ≠ none := by
          simp [cacheRegistry.Register, hs]
        constructor
        · intro h
          exact absurd h hl
        · rintro ⟨_, hfresh, _⟩
          have := hfresh s (List.mem_cons_self _ _)
          rw [hs] at this
          exact absurd this (by simp)
      | none =>
        have hstep : cacheRegistry.Register Name r (some s :: cc) =
            cacheRegistry.Register Name ⟨(Name s, s) :: r.caches⟩ cc := by
          simp [cacheRegistry.Register, hs]
        rw [hstep, ih ⟨(Name s, s) :: r.caches⟩, List.reduceOption_cons_of_some,
          List.map_cons, List.nodup_cons]
        have hlook : ∀ s' : C,
            List.lookup (Name s') ((Name s, s) :: r.caches) = none ↔
              (Name s' ≠ Name s ∧ r.caches.lookup (Name s') = none) := by
          intro s'
          simp only [List.lookup_cons]
          cases hb : (Name s' == Name s)
          · have hne : Name s' ≠ Name s := by simpa using hb
            simp [hne]
          · have heq : Name s' = Name s := by simpa using hb
            simp [heq]
        constructor
        · rintro ⟨hnil, hfresh, hnd⟩
          refine ⟨?_, ?_, ?_, hnd⟩
          · intro hm
            rcases List.mem_cons.mp hm with h | h
            · exact absurd h (by simp)
            · exact hnil h
          · intro s' hs'
            rcases List.mem_cons.mp hs' with h | h
            · have : s' = s := by simpa using h
              rw [this]
              exact hs
            · exact ((hlook s').mp (hfresh s' h)).2
          · intro hm
            obtain ⟨s', hs', hname⟩ := List.mem_map.mp hm
            have hin : some s' ∈ cc := List.reduceOption_mem_iff.mp hs'
            exact ((hlook s').mp (hfresh s' hin)).1 hname
        · rintro ⟨hnil, hfresh, hnotin, hnd⟩
          refine ⟨fun hm => hnil (List.mem_cons_of_mem _ hm), ?_, hnd⟩
          intro s' hs'
          refine (hlook s').mpr ⟨?_, hfresh s' (List.mem_cons_of_mem _ hs')⟩
          intro hname
          apply hnotin
          rw [← hname]
          exact List.mem_map_of_mem Name (List.reduceOption_mem_iff.mpr hs')

/-- A batch without nil entry is its list of non-nil entries. -/
theorem map_some_reduceOption {C : Type} :
    ∀ cc : List (Option C), none ∉ cc → cc = cc.reduceOption.map some := by
  intro cc
  induction cc with
  | nil => intro _; rfl
  | cons x cc ih =>
    intro h
    cases x with
    | none => exact absurd (List.mem_cons_self _ _) h
    | some s =>
      rw [List.reduceOption_cons_of_some, List.map_cons,
        ← ih (fun hm => h (List.mem_cons_of_mem _ hm))]

end cache

/-- C27: `Register(batch)` returns an error if and only if some entry of the
batch is nil, or has a name registered before the call, or the names of the
non-nil entries are not pairwise distinct (an entry has the name of an earlier
one); and when it returns nil, every entry of the batch is registered under
its name. -/
theorem C27_register_error_iff {C : Type} (Name : C → String) (r : cache.cacheRegistry C)
    (cc : List (Option C)) :
    ((cache.cacheRegistry.Register Name r cc).2 ≠ none ↔
      (none ∈ cc ∨ (∃ s, some s ∈ cc ∧ (r.GetByName (Name s)).2 = true) ∨
        ¬ (cc.reduceOption.map Name).Nodup)) ∧
    ((cache.cacheRegistry.Register Name r cc).2 = none →
      ∀ s, some s ∈ cc →
        (cache.cacheRegistry.Register Name r cc).1.GetByName (Name s) = (some s, true)) := by
  have hiff := cache.Register_no_error_iff Name cc r
  constructor
  · rw [Ne, hiff]
    constructor
    · intro h
      by_cases h1 : none ∈ cc
      · exact Or.inl h1
      · by_cases h2 : ∃ s, some s ∈ cc ∧ (r.GetByName (Name s)).2 = true
        · exact Or.inr (Or.inl h2)
        · refine Or.inr (Or.inr fun hnd => h ⟨h1, fun s hs => ?_, hnd⟩)
          cases hl : r.caches.lookup (Name s) with
          | none => rfl
          | some c =>
            exfalso
            apply h2
            refine ⟨s, hs, ?_⟩
            simp [cache.cacheRegistry.GetByName, hl]
    · rintro (h | ⟨s, hs, hreg⟩ | h) ⟨h1, h2, h3⟩
      · exact h1 h
      · have := h2 s hs
        simp [cache.cacheRegistry.GetByName, this] at hreg
      · exact h h3
  · intro hok s hs
    obtain ⟨h1, h2, h3⟩ := hiff.mp hok
    have hcc := cache.map_some_reduceOption cc h1
    have hfresh : ∀ s' ∈ cc.reduceOption, r.caches.lookup (Name s') = none :=
      fun s' hs' => h2 s' (List.reduceOption_mem_iff.mp hs')
    obtain ⟨_, hlook⟩ := cache.Register_fresh_batch Name cc.reduceOption r hfresh h3
    rw [← hcc] at hlook
    rw [cache.GetByName_eq_some_iff, hlook]
    exact Or.inl ⟨List.reduceOption_mem_iff.mpr hs, rfl⟩

/-- C27 on the example caches: the batch `cache1, impostor` (two entries named
"cache-1") and the batch holding a nil entry are refused; the batch `cache1,
cache2` is accepted and "cache-2" then resolves to `cache2`. -/
theorem C27_register_error_iff_witness :
    (cache.cacheRegistry.Register example_registry.Node.name cache.NewRegistry
      [some example_registry.cache1, some example_registry.impostor]).2 ≠ none ∧
    (cache.cacheRegistry.Register example_registry.Node.name cache.NewRegistry
      [none]).2 ≠ none ∧
    (cache.cacheRegistry.Register example_registry.Node.name cache.NewRegistry
      [some example_registry.cache1, some example_registry.cache2]).1.GetByName "cache-2" =
      (some example_registry.cache2, true) :=
  ⟨(C27_register_error_iff example_registry.Node.name cache.NewRegistry
      [some example_registry.cache1, some example_registry.impostor]).1.mpr
      (Or.inr (Or.inr (by decide))),
   (C27_register_error_iff example_registry.Node.name cache.NewRegistry [none]).1.mpr
      (Or.inl (by decide)),
   (C27_register_error_iff example_registry.Node.name cache.NewRegistry
      [some example_registry.cache1, some example_registry.cache2]).2 (by decide)
      example_registry.cache2 (by decide)⟩

/-- C28 (the code departs from it): in the lru and arc wrappers `Contains` is
the engine's own `Contains`, without any look at the expiry.  On the example
engine, after `PutWithTTL(1, 1, 1ns)` at instant 100, at instant 101
`Contains(1)` is true while `Peek(1)` reports `(nil, false)`, in both
wrappers. -/
theorem C28_Contains_ignores_expiry :
    (∀ (σ K V : Type) (c : lru.Cache σ K V) (key : K),
      c.Contains key = c.engine.Contains key c.st) ∧
    (∀ (σ K V : Type) (c : arc.Cache σ K V) (key : K),
      c.Contains key = c.engine.Contains key c.st) ∧
    (example_engine.lruCache.PutWithTTL 1 (cache.Value.user 1) 1 ⟨100⟩).Contains 1 = true ∧
    (example_engine.lruCache.PutWithTTL 1 (cache.Value.user 1) 1 ⟨100⟩).Peek 1 ⟨101⟩ =
      cache.Result.ret (cache.Value.nil, false) ∧
    (example_engine.arcCache.PutWithTTL 1 (cache.Value.user 1) 1 ⟨100⟩).Contains 1 = true ∧
    (example_engine.arcCache.PutWithTTL 1 (cache.Value.user 1) 1 ⟨100⟩).Peek 1 ⟨101⟩ =
      cache.Result.ret (cache.Value.nil, false) := by
  refine ⟨fun σ K V c key => rfl, fun σ K V c key => rfl, by decide, by decide, by decide,
    by decide⟩
